import Mathlib

/-!
Formal model of the renanta WebSocket-to-TCP relay (two source variants:
src/unnamed/part_000 and src/server.js).

Strings manipulated by the JavaScript code are modelled as lists of natural
numbers (character codes / byte values).  The backend stream delimiter is the
newline byte 0x0A (10); the colon separator of the destination token is 0x3A
(58); the path slash is 0x2F (47); the base64 padding sign is 0x3D (61).
-/

/-- Mirrors JavaScript `String.prototype.split` with a one-character
separator `d`: the result is always non-empty, adjacent separators produce
empty segments, and a trailing separator produces a trailing empty segment. -/
def jsSplit (d : Nat) : List Nat → List (List Nat)
  | [] => [[]]
  | c :: t =>
    if c = d then [] :: jsSplit d t
    else
      match jsSplit d t with
      | s :: ss => (c :: s) :: ss
      | [] => [[c]]

/-- The complete delimiter-bounded segments of a stream: everything produced
by the split except the (possibly incomplete) final part, with empty segments
dropped. -/
def completeSegs (d : Nat) (l : List Nat) : List (List Nat) :=
  ((jsSplit d l).dropLast).filter (fun m => decide (m ≠ []))

/-- The residual tail of a stream: the final part of the split, which the
relay keeps back because it may still be incomplete. -/
def tailSeg (d : Nat) (l : List Nat) : List Nat :=
  (jsSplit d l).getLastD []

/-- One `tcp.on('data')` event of the part_000 variant.  `chunk` is the text
the handler manipulates (the JS string obtained from the received buffer),
`rest` is the residual tail closed over by the handler, and `wsOpen` records
whether `ws.readyState === WebSocket.OPEN` at delivery time.  The handler
concatenates `rest` with the chunk, splits on the newline, pops the final
part as the new tail, and sends every non-empty completed segment when the
client connection is open. -/
def tcpDataStep (wsOpen : Bool) (rest chunk : List Nat) :
    List Nat × List (List Nat) :=
  ((jsSplit 10 (rest ++ chunk)).getLastD [],
   if wsOpen then
     ((jsSplit 10 (rest ++ chunk)).dropLast).filter (fun m => decide (m ≠ []))
   else [])

/-- Runs the reassembler over a sequence of data events, each paired with the
client-open flag at its delivery time.  Returns the final residual tail and
the per-event batches of delivered messages. -/
def runChunks : List Nat → List (List Nat × Bool) → List Nat × List (List (List Nat))
  | rest, [] => (rest, [])
  | rest, e :: es =>
    ((runChunks (tcpDataStep e.2 rest e.1).1 es).1,
     (tcpDataStep e.2 rest e.1).2 :: (runChunks (tcpDataStep e.2 rest e.1).1 es).2)

/-- The `tcp.on('end')` handler of part_000: at backend stream end the
residual tail is sent once, if it is non-empty and the client is open. -/
def tcpEndStep (wsOpen : Bool) (rest : List Nat) : List (List Nat) :=
  if rest ≠ [] ∧ wsOpen = true then [rest] else []

/-- The `ws.on('message')` framing of part_000: write the payload unchanged
when its final byte is already 0x0A, otherwise append exactly one 0x0A
(`buf.slice(-1)[0] === 0x0a ? buf : Buffer.concat([buf, Buffer.from('\n')])`;
for an empty buffer the indexing yields `undefined`, so the delimiter is
appended). -/
def ensureNewline (buf : List Nat) : List Nat :=
  if buf.getLast? = some 10 then buf else buf ++ [10]

/-- The `ws.on('message')` framing of the server.js variant (textually the
same expression as in part_000). -/
def ensureNewlineServer (buf : List Nat) : List Nat :=
  if buf.getLast? = some 10 then buf else buf ++ [10]

/-- The `tcp.on('data')` handler of the server.js variant: the raw chunk is
forwarded as one message when the client connection is open, with no
re-segmentation. -/
def serverTcpData (wsOpen : Bool) (chunk : List Nat) : List (List Nat) :=
  if wsOpen then [chunk] else []

/-- A UTF-8 continuation byte: high bits 10xxxxxx. -/
def IsCont (b : Nat) : Prop := 0x80 ≤ b ∧ b < 0xC0

instance instDecidableIsCont (b : Nat) : Decidable (IsCont b) :=
  inferInstanceAs (Decidable (0x80 ≤ b ∧ b < 0xC0))

/-- One step of the WHATWG UTF-8 decoder used by Node's
`Buffer.prototype.toString('utf8')`: given the first byte and the remaining
bytes, produce the decoded code point (U+FFFD, 0xFFFD, on malformed input)
and the bytes still to be decoded.  Overlong encodings, surrogate ranges and
values above U+10FFFF are rejected via the constraints on the second byte. -/
def utf8Step (b0 : Nat) (t : List Nat) : Nat × List Nat :=
  if b0 < 0x80 then (b0, t)
  else if b0 < 0xC2 then (0xFFFD, t)
  else if b0 < 0xE0 then
    match t with
    | b1 :: t1 =>
      if IsCont b1 then ((b0 - 0xC0) * 0x40 + (b1 - 0x80), t1)
      else (0xFFFD, b1 :: t1)
    | [] => (0xFFFD, [])
  else if b0 < 0xF0 then
    match t with
    | b1 :: t1 =>
      if IsCont b1 ∧ (b0 = 0xE0 → 0xA0 ≤ b1) ∧ (b0 = 0xED → b1 < 0xA0) then
        match t1 with
        | b2 :: t2 =>
          if IsCont b2 then
            ((b0 - 0xE0) * 0x1000 + (b1 - 0x80) * 0x40 + (b2 - 0x80), t2)
          else (0xFFFD, b2 :: t2)
        | [] => (0xFFFD, [])
      else (0xFFFD, b1 :: t1)
    | [] => (0xFFFD, [])
  else if b0 < 0xF5 then
    match t with
    | b1 :: t1 =>
      if IsCont b1 ∧ (b0 = 0xF0 → 0x90 ≤ b1) ∧ (b0 = 0xF4 → b1 < 0x90) then
        match t1 with
        | b2 :: t2 =>
          if IsCont b2 then
            match t2 with
            | b3 :: t3 =>
              if IsCont b3 then
                ((b0 - 0xF0) * 0x40000 + (b1 - 0x80) * 0x1000 +
                   (b2 - 0x80) * 0x40 + (b3 - 0x80), t3)
              else (0xFFFD, b3 :: t3)
            | [] => (0xFFFD, [])
          else (0xFFFD, b2 :: t2)
        | [] => (0xFFFD, [])
      else (0xFFFD, b1 :: t1)
    | [] => (0xFFFD, [])
  else (0xFFFD, t)

/-- Fuel-indexed UTF-8 decoding loop; the fuel only bounds the recursion and
is irrelevant whenever it is at least the length of the input. -/
def utf8DecodeAux : Nat → List Nat → List Nat
  | _, [] => []
  | 0, _ :: _ => []
  | f + 1, b0 :: t => (utf8Step b0 t).1 :: utf8DecodeAux f (utf8Step b0 t).2

/-- Node `buf.toString('utf8')`, modelled as a byte list to code-point list
conversion (each step consumes at least one byte, so the length is enough
fuel). -/
def utf8Decode (l : List Nat) : List Nat := utf8DecodeAux l.length l

/-- UTF-8 encoding of one code point, as performed when a JS string is sent
in a WebSocket text frame. -/
def utf8EncodeChar (c : Nat) : List Nat :=
  if c < 0x80 then [c]
  else if c < 0x800 then [0xC0 + c / 0x40, 0x80 + c % 0x40]
  else if c < 0x10000 then
    [0xE0 + c / 0x1000, 0x80 + c / 0x40 % 0x40, 0x80 + c % 0x40]
  else
    [0xF0 + c / 0x40000, 0x80 + c / 0x1000 % 0x40, 0x80 + c / 0x40 % 0x40,
     0x80 + c % 0x40]

/-- UTF-8 encoding of a code-point list. -/
def utf8Encode : List Nat → List Nat
  | [] => []
  | c :: t => utf8EncodeChar c ++ utf8Encode t

/-- A Unicode scalar value: any code point outside the surrogate range and
at most U+10FFFF. -/
def ValidScalar (c : Nat) : Prop := c < 0x110000 ∧ ¬(0xD800 ≤ c ∧ c < 0xE000)

instance instDecidableValidScalar (c : Nat) : Decidable (ValidScalar c) :=
  inferInstanceAs (Decidable (c < 0x110000 ∧ ¬(0xD800 ≤ c ∧ c < 0xE000)))

/-- Well-formed UTF-8 byte sequences (no overlong forms, no surrogates, no
code points above U+10FFFF). -/
inductive ValidUtf8 : List Nat → Prop
  | nil : ValidUtf8 []
  | one {b : Nat} {t : List Nat} : b < 0x80 → ValidUtf8 t → ValidUtf8 (b :: t)
  | two {b0 b1 : Nat} {t : List Nat} :
      0xC2 ≤ b0 → b0 < 0xE0 → IsCont b1 → ValidUtf8 t →
      ValidUtf8 (b0 :: b1 :: t)
  | three {b0 b1 b2 : Nat} {t : List Nat} :
      0xE0 ≤ b0 → b0 < 0xF0 → IsCont b1 → IsCont b2 →
      (b0 = 0xE0 → 0xA0 ≤ b1) → (b0 = 0xED → b1 < 0xA0) → ValidUtf8 t →
      ValidUtf8 (b0 :: b1 :: b2 :: t)
  | four {b0 b1 b2 b3 : Nat} {t : List Nat} :
      0xF0 ≤ b0 → b0 ≤ 0xF4 → IsCont b1 → IsCont b2 → IsCont b3 →
      (b0 = 0xF0 → 0x90 ≤ b1) → (b0 = 0xF4 → b1 < 0x90) → ValidUtf8 t →
      ValidUtf8 (b0 :: b1 :: b2 :: b3 :: t)

/-- The part_000 backend-to-client path at the byte level, with the client
open throughout: each received byte chunk is decoded by
`chunk.toString('utf8')`, run through the re-segmenting handler, and each
delivered message is re-encoded to the bytes of its WebSocket text frame. -/
def byteRunChunks : List Nat → List (List Nat) → List Nat × List (List (List Nat))
  | rest, [] => (rest, [])
  | rest, c :: cs =>
    ((byteRunChunks (tcpDataStep true rest (utf8Decode c)).1 cs).1,
     ((tcpDataStep true rest (utf8Decode c)).2.map utf8Encode)
       :: (byteRunChunks (tcpDataStep true rest (utf8Decode c)).1 cs).2)

/-- All frame bytes delivered for a byte-chunk sequence followed by backend
stream end (the `tcp.on('end')` flush of the residual tail). -/
def byteDeliveredAll (cs : List (List Nat)) : List (List Nat) :=
  ((byteRunChunks [] cs).2).flatten ++
    (if (byteRunChunks [] cs).1 = [] then []
     else [utf8Encode (byteRunChunks [] cs).1])

/-- The base64 alphabet, value to character code. -/
def b64Char (n : Nat) : Nat :=
  if n < 26 then 65 + n
  else if n < 52 then 97 + (n - 26)
  else if n < 62 then 48 + (n - 52)
  else if n = 62 then 43
  else 47

/-- Character code to base64 value, as accepted by Node's forgiving decoder:
the standard alphabet, the URL-safe variants of 62 and 63, and nothing else
(padding signs and unrecognised characters decode to nothing and are
skipped). -/
def b64Value (c : Nat) : Option Nat :=
  if 65 ≤ c ∧ c ≤ 90 then some (c - 65)
  else if 97 ≤ c ∧ c ≤ 122 then some (26 + (c - 97))
  else if 48 ≤ c ∧ c ≤ 57 then some (52 + (c - 48))
  else if c = 43 ∨ c = 45 then some 62
  else if c = 47 ∨ c = 95 then some 63
  else none

/-- Modelled from the spec: the reversible text encoding applied by the
client (`btoa(target)` in the usage comment of server.js) — standard base64
with trailing padding; it is not part of the server source. -/
def base64Encode : List Nat → List Nat
  | b0 :: b1 :: b2 :: rest =>
    b64Char (b0 / 4) :: b64Char (b0 % 4 * 16 + b1 / 16) ::
      b64Char (b1 % 16 * 4 + b2 / 64) :: b64Char (b2 % 64) :: base64Encode rest
  | [b0, b1] =>
    [b64Char (b0 / 4), b64Char (b0 % 4 * 16 + b1 / 16), b64Char (b1 % 16 * 4), 61]
  | [b0] => [b64Char (b0 / 4), b64Char (b0 % 4 * 16), 61, 61]
  | [] => []

/-- Reassembles decoded sextets into bytes: full groups of four yield three
bytes, a trailing group of three yields two, of two yields one, and a lone
trailing sextet is dropped — reproducing Node's handling of padded and
truncated base64 input. -/
def decodeSextets : List Nat → List Nat
  | s0 :: s1 :: s2 :: s3 :: rest =>
    (s0 * 4 + s1 / 16) :: (s1 % 16 * 16 + s2 / 4) :: (s2 % 4 * 64 + s3) ::
      decodeSextets rest
  | [s0, s1, s2] => [s0 * 4 + s1 / 16, s1 % 16 * 16 + s2 / 4]
  | [s0, s1] => [s0 * 4 + s1 / 16]
  | _ => []

/-- Node `Buffer.from(path, 'base64')`: a forgiving decoder that never
throws — characters outside the (URL-safe extended) alphabet, including the
padding sign, are skipped, and the surviving sextets are packed into bytes. -/
def base64Decode (s : List Nat) : List Nat :=
  decodeSextets (s.filterMap b64Value)

/-- Decimal digit string predicate (character codes 48–57). -/
def IsDigits (l : List Nat) : Prop := ∀ c ∈ l, 48 ≤ c ∧ c ≤ 57

instance instDecidableIsDigits (l : List Nat) : Decidable (IsDigits l) :=
  List.decidableBAll _ l

/-- Numeric value of a decimal digit string. -/
def valDigits (s : List Nat) : Nat :=
  s.foldl (fun a c => a * 10 + (c - 48)) 0

/-- JavaScript `Number(string)`, restricted to the value shapes this
program ever passes on to `net.connect`: the empty string is 0, an
optionally minus-signed non-empty decimal digit string is its exact value,
and every other string is mapped to NaN (`none`).  Other numeric literal
forms (whitespace-padded, fractional, exponent, hex/octal/binary, signed
`Infinity`) are therefore conflated with NaN; this is sound for the
rejection analysis because the conflated strings are never classified as
falsy — the faithful falsiness test used there is `jsNumberFalsy` below —
but it does mean the port value attached to a `connect` outcome is only
specified on integer-shaped port strings. -/
def jsNumber (s : List Nat) : Option Int :=
  match s with
  | [] => some 0
  | 45 :: rest =>
    if rest ≠ [] ∧ IsDigits rest then some (-(valDigits rest : Int)) else none
  | s =>
    if IsDigits s then some ((valDigits s : Int)) else none

/-- `Number` applied to the possibly-undefined second destructuring target
(`Number(undefined)` is NaN). -/
def jsNumberU : Option (List Nat) → Option Int
  | none => none
  | some s => jsNumber s

/-- Decimal digit character test. -/
def digitB (c : Nat) : Bool := decide (48 ≤ c ∧ c ≤ 57)

/-- Hexadecimal digit character test (0-9, A-F, a-f). -/
def hexB (c : Nat) : Bool :=
  decide ((48 ≤ c ∧ c ≤ 57) ∨ (65 ≤ c ∧ c ≤ 70) ∨ (97 ≤ c ∧ c ≤ 102))

/-- Octal digit character test. -/
def octB (c : Nat) : Bool := decide (48 ≤ c ∧ c ≤ 55)

/-- Binary digit character test. -/
def binB (c : Nat) : Bool := decide (c = 48 ∨ c = 49)

/-- ECMAScript StrWhiteSpace code points (trimmed by `Number(string)`):
TAB, LF, VT, FF, CR, space, NBSP, the Unicode space separators, line and
paragraph separators, and the BOM. -/
def jsWhitespaceB (c : Nat) : Bool :=
  decide (c = 9 ∨ c = 0xA ∨ c = 0xB ∨ c = 0xC ∨ c = 0xD ∨ c = 0x20
    ∨ c = 0xA0 ∨ c = 0x1680 ∨ (0x2000 ≤ c ∧ c ≤ 0x200A) ∨ c = 0x2028
    ∨ c = 0x2029 ∨ c = 0x202F ∨ c = 0x205F ∨ c = 0x3000 ∨ c = 0xFEFF)

/-- Leading and trailing StrWhiteSpace removal performed by
`Number(string)`. -/
def trimWs (s : List Nat) : List Nat :=
  (((s.dropWhile jsWhitespaceB).reverse.dropWhile jsWhitespaceB)).reverse

/-- The digits of an ExponentPart after the `e`/`E`: an optional sign
followed by one or more decimal digits consuming the whole rest. -/
def expDigits : List Nat → Bool
  | [] => false
  | c :: r =>
    if c = 43 ∨ c = 45 then decide (r ≠ []) && r.all digitB
    else (c :: r).all digitB

/-- What may follow the mantissa of a decimal literal: nothing, or a full
ExponentPart. -/
def expTail : List Nat → Bool
  | [] => true
  | c :: rest => decide (c = 101 ∨ c = 69) && expDigits rest

/-- Recognises the unsigned StrUnsignedDecimalLiteral body other than
`Infinity`: decimal digits with an optional fraction and exponent, where at
least one mantissa digit is present. -/
def decMatch (s : List Nat) : Bool :=
  match s.dropWhile digitB with
  | 46 :: r2 =>
    decide (s.takeWhile digitB ≠ [] ∨ r2.takeWhile digitB ≠ [])
      && expTail (r2.dropWhile digitB)
  | r1 => decide (s.takeWhile digitB ≠ []) && expTail r1

/-- For a string matched by `decMatch`: its mantissa digits are all zero,
in which case the numeric value is exactly ±0 (the exponent is
irrelevant). -/
def decZero (s : List Nat) : Bool :=
  match s.dropWhile digitB with
  | 46 :: r2 =>
    (s.takeWhile digitB).all (fun c => decide (c = 48))
      && (r2.takeWhile digitB).all (fun c => decide (c = 48))
  | _ => (s.takeWhile digitB).all (fun c => decide (c = 48))

/-- After a leading `0`: `x`/`X`, `o`/`O` or `b`/`B` followed by one or
more digits of the corresponding radix consuming the whole rest. -/
def radixRest (x : Nat) (rest : List Nat) : Bool :=
  if x = 120 ∨ x = 88 then decide (rest ≠ []) && rest.all hexB
  else if x = 111 ∨ x = 79 then decide (rest ≠ []) && rest.all octB
  else if x = 98 ∨ x = 66 then decide (rest ≠ []) && rest.all binB
  else false

/-- Recognises the unsigned NonDecimalIntegerLiteral forms `0x…`, `0o…`,
`0b…`. -/
def radixMatch : List Nat → Bool
  | z :: x :: rest => decide (z = 48) && radixRest x rest
  | _ => false

/-- For a string matched by `radixMatch`: all its radix digits are zero, in
which case the numeric value is exactly 0. -/
def radixZero : List Nat → Bool
  | _ :: _ :: rest => rest.all (fun c => decide (c = 48))
  | _ => false

/-- Strips the optional sign of a StrDecimalLiteral. -/
def signedBody (s : List Nat) : List Nat :=
  match s with
  | c :: r => if c = 43 ∨ c = 45 then r else s
  | [] => []

/-- The character codes of `Infinity`. -/
def infinityStr : List Nat := [73, 110, 102, 105, 110, 105, 116, 121]

/-- Faithful test for whether JavaScript `Number(s)` is falsy (NaN or ±0),
implemented syntactically on the ECMAScript StrNumericLiteral grammar: the
trimmed string is falsy when empty (value 0), when it matches a numeric
form whose mantissa digits are all zero (value exactly ±0), or when it
matches no numeric form at all (NaN); any match with a non-zero mantissa —
including fractions, exponents, hex/octal/binary and signed `Infinity` — is
not falsy.  The one deviation from IEEE doubles is deliberate: values that
become 0 only by floating-point underflow (such as `1e-400`) are treated as
non-zero, so this test classifies strictly fewer strings as falsy than the
engine does — sound for proving rejections. -/
def jsNumberFalsy (s : List Nat) : Bool :=
  if trimWs s = [] then true
  else if radixMatch (trimWs s) then radixZero (trimWs s)
  else if decMatch (signedBody (trimWs s)) then decZero (signedBody (trimWs s))
  else if signedBody (trimWs s) = infinityStr then false
  else true

/-- Fuel-indexed decimal printing loop (most significant digit first). -/
def natDigitsAux : Nat → Nat → List Nat
  | 0, n => [48 + n % 10]
  | f + 1, n =>
    if n < 10 then [48 + n] else natDigitsAux f (n / 10) ++ [48 + n % 10]

/-- Canonical decimal digit string of a natural number (`String(port)` /
template interpolation on the client side). -/
def natDigits (n : Nat) : List Nat := natDigitsAux n n

/-- JavaScript `req.url.replace('/', '')`: removes only the first occurrence
of the slash. -/
def replaceFirstSlash : List Nat → List Nat
  | [] => []
  | c :: t => if c = 47 then t else c :: replaceFirstSlash t

/-- The close reason string of part_000 (the server.js variant differs only
in wording). -/
def needHostPort : List Nat :=
  [110, 101, 101, 100, 32, 104, 111, 115, 116, 58, 112, 111, 114, 116]

/-- Result of processing one inbound connection handshake: either the
connection is closed with a status code and reason and no Session exists,
or a backend connection to the given host and port is attempted. -/
inductive Outcome where
  | reject (code : Nat) (reason : List Nat)
  | connect (host : List Nat) (port : Int)
deriving DecidableEq

/-- The validation of the decoded destination string shared by both
variants: `const [host, portStr] = decoded.split(':'); const port =
Number(portStr); if (!host || !port) close(1008) else net.connect({host,
port})`.  A missing second part gives `Number(undefined)` = NaN; NaN and 0
are the falsy numbers. -/
def decideOutcome (decoded : List Nat) : Outcome :=
  if (jsSplit 58 decoded).headI = []
      ∨ jsNumberU (jsSplit 58 decoded)[1]? = none
      ∨ jsNumberU (jsSplit 58 decoded)[1]? = some 0 then
    Outcome.reject 1008 needHostPort
  else
    Outcome.connect (jsSplit 58 decoded).headI
      ((jsNumberU (jsSplit 58 decoded)[1]?).getD 0)

/-- The full `wss.on('connection')` destination handling: strip the first
slash from the request path, base64-decode the token (Node's forgiving
decoder, which never throws, so the catch branch is dead), interpret the
bytes as UTF-8 text, and validate host and port. -/
def acceptConnection (url : List Nat) : Outcome :=
  decideOutcome (utf8Decode (base64Decode (replaceFirstSlash url)))

/-- Events that can be delivered to one Session by its environment: the
backend connect success callback, backend data/end, a client message, the
four teardown triggers, and a liveness-probe timer tick. -/
inductive Evt where
  | tcpConnect
  | tcpData (chunk : List Nat)
  | tcpEnd
  | wsMessage (data : List Nat)
  | wsClose
  | wsError
  | tcpClose
  | tcpError
  | kaTick
deriving DecidableEq

/-- Observable operations a Session performs on its connection handles. -/
inductive Act where
  | ping
  | wsSend (m : List Nat)
  | tcpWrite (b : List Nat)
  | tcpDestroy
  | wsCloseCall
deriving DecidableEq

/-- Mutable state closed over by one connection handler invocation:
`ws.readyState === OPEN`, whether the TCP connect callback has fired,
whether `tcp.destroy()` has taken effect, whether the keep-alive interval
is still set, and the reassembler tail `rest`. -/
structure SessionState where
  wsOpen : Bool
  tcpConnected : Bool
  tcpDestroyed : Bool
  kaActive : Bool
  rest : List Nat
deriving DecidableEq

/-- State at the end of the `wss.on('connection')` handler body: the
WebSocket is open, the TCP connect is in flight, and — before any backend
event can fire — `setInterval(() => ws.ping(), KEEPALIVE_MS)` has already
been set. -/
def initSession : SessionState :=
  { wsOpen := true, tcpConnected := false, tcpDestroyed := false,
    kaActive := true, rest := [] }

/-- Node `net.Socket.destroy()`: destroying an already-destroyed socket is
a documented no-op, otherwise the socket is released. -/
def netDestroy (st : SessionState) : SessionState × List Act :=
  if st.tcpDestroyed = true then (st, [])
  else ({ st with tcpDestroyed := true }, [Act.tcpDestroy])

/-- `closeAll` of part_000 (identical to `shutdown` of server.js):
`tcp.destroy(); if (ws.readyState === WebSocket.OPEN) ws.close();` — the
close call moves the WebSocket out of the OPEN state. -/
def closeAll (st : SessionState) : SessionState × List Act :=
  if (netDestroy st).1.wsOpen = true then
    ({ (netDestroy st).1 with wsOpen := false },
     (netDestroy st).2 ++ [Act.wsCloseCall])
  else ((netDestroy st).1, (netDestroy st).2)

/-- One event dispatch for a Session, following the handlers registered in
the connection callback.  The ws close event runs both 'close' listeners in
registration order: `closeAll` and then `clearInterval(ka)`.  A timer tick
runs only while the interval is set, and `ws.ping()` transmits a frame only
when the socket is OPEN (the ws library refuses to send otherwise). -/
def step (st : SessionState) : Evt → SessionState × List Act
  | Evt.tcpConnect => ({ st with tcpConnected := true }, [])
  | Evt.tcpData c =>
    ({ st with rest := (tcpDataStep st.wsOpen st.rest (utf8Decode c)).1 },
     ((tcpDataStep st.wsOpen st.rest (utf8Decode c)).2).map Act.wsSend)
  | Evt.tcpEnd => (st, (tcpEndStep st.wsOpen st.rest).map Act.wsSend)
  | Evt.wsMessage d => (st, [Act.tcpWrite (ensureNewline d)])
  | Evt.wsClose => ({ (closeAll st).1 with kaActive := false }, (closeAll st).2)
  | Evt.wsError => closeAll st
  | Evt.tcpClose => closeAll st
  | Evt.tcpError => closeAll st
  | Evt.kaTick =>
    (st, if st.kaActive = true ∧ st.wsOpen = true then [Act.ping] else [])

/-- Runs a Session over a list of events, accumulating the performed
actions. -/
def runEvts : SessionState → List Evt → SessionState × List Act
  | st, [] => (st, [])
  | st, e :: es =>
    ((runEvts (step st e).1 es).1, (step st e).2 ++ (runEvts (step st e).1 es).2)

/-- A Session whose teardown has completed: backend handle released, client
no longer open, probe timer cleared. -/
def closedState (st : SessionState) : SessionState :=
  { st with wsOpen := false, tcpDestroyed := true, kaActive := false }

/-- The four teardown trigger events of §4.5. -/
inductive Trigger where
  | wsClose
  | wsError
  | tcpClose
  | tcpError
deriving DecidableEq

def Trigger.toEvt : Trigger → Evt
  | Trigger.wsClose => Evt.wsClose
  | Trigger.wsError => Evt.wsError
  | Trigger.tcpClose => Evt.tcpClose
  | Trigger.tcpError => Evt.tcpError

theorem jsSplit_ne_nil (d : Nat) (l : List Nat) : jsSplit d l ≠ [] := by
  cases l with
  | nil => simp [jsSplit]
  | cons c t =>
    simp only [jsSplit]
    split
    · simp
    · split <;> simp

theorem jsSplit_cons_eq (d : Nat) (l : List Nat) :
    jsSplit d (d :: l) = [] :: jsSplit d l := by
  simp [jsSplit]

theorem jsSplit_cons_ne {c d : Nat} (h : c ≠ d) (l : List Nat) :
    jsSplit d (c :: l) = (c :: (jsSplit d l).headI) :: (jsSplit d l).tail := by
  simp only [jsSplit, if_neg h]
  cases hS : jsSplit d l with
  | nil => exact absurd hS (jsSplit_ne_nil d l)
  | cons s ss => simp

theorem jsSplit_no_delim {d : Nat} {l : List Nat} (h : d ∉ l) :
    jsSplit d l = [l] := by
  induction l with
  | nil => rfl
  | cons c t ih =>
    have hc : c ≠ d := fun he => h (he ▸ List.mem_cons_self c t)
    have ht : d ∉ t := fun hm => h (List.mem_cons_of_mem c hm)
    rw [jsSplit_cons_ne hc, ih ht]
    simp

theorem getLastD_irrel {α : Type} {l : List α} (h : l ≠ []) (x y : α) :
    l.getLastD x = l.getLastD y := by
  cases l with
  | nil => exact absurd rfl h
  | cons a t => rw [List.getLastD_cons, List.getLastD_cons]

theorem getLastD_append_right {α : Type} (a : List α) {b : List α}
    (hb : b ≠ []) (x : α) : (a ++ b).getLastD x = b.getLastD x := by
  induction a with
  | nil => rfl
  | cons c t ih =>
    have ht : t ++ b ≠ [] := by
      intro hco
      rcases List.append_eq_nil.mp hco with ⟨_, h2⟩
      exact hb h2
    rw [List.cons_append, List.getLastD_cons, getLastD_irrel ht c x, ih]

theorem dropLast_append_right {α : Type} (a : List α) {b : List α}
    (hb : b ≠ []) : (a ++ b).dropLast = a ++ b.dropLast := by
  rw [List.dropLast_append]
  simp [List.isEmpty_iff, hb]

theorem jsSplit_append (d : Nat) (a b : List Nat) :
    jsSplit d (a ++ b) =
      (jsSplit d a).dropLast ++
        ((jsSplit d a).getLastD [] ++ (jsSplit d b).headI) :: (jsSplit d b).tail := by
  induction a with
  | nil =>
    cases hb : jsSplit d b with
    | nil => exact absurd hb (jsSplit_ne_nil d b)
    | cons s ss => simp [jsSplit, hb]
  | cons c a ih =>
    by_cases hc : c = d
    · rw [hc, List.cons_append, jsSplit_cons_eq, jsSplit_cons_eq, ih]
      cases hA : jsSplit d a with
      | nil => exact absurd hA (jsSplit_ne_nil d a)
      | cons s ss =>
        simp only [List.dropLast_cons₂, List.getLastD_cons, List.cons_append]
    · rw [List.cons_append, jsSplit_cons_ne hc, jsSplit_cons_ne hc, ih]
      cases hA : jsSplit d a with
      | nil => exact absurd hA (jsSplit_ne_nil d a)
      | cons s ss =>
        cases ss with
        | nil => simp
        | cons y ys =>
          simp only [List.headI_cons, List.tail_cons, List.getLastD_cons,
            List.dropLast_cons₂, List.cons_append]

theorem jsSplit_getLastD_not_mem (d : Nat) (l : List Nat) :
    d ∉ (jsSplit d l).getLastD [] := by
  induction l with
  | nil => simp [jsSplit]
  | cons c t ih =>
    by_cases hc : c = d
    · rw [hc, jsSplit_cons_eq, List.getLastD_cons]
      exact ih
    · rw [jsSplit_cons_ne hc]
      cases hS : jsSplit d t with
      | nil => exact absurd hS (jsSplit_ne_nil d t)
      | cons s ss =>
        cases ss with
        | nil =>
          rw [hS] at ih
          simp only [List.headI_cons, List.tail_cons, List.getLastD_cons] at ih ⊢
          simp only [List.getLastD_nil] at ih ⊢
          intro hm
          rcases List.mem_cons.mp hm with h1 | h2
          · exact hc h1.symm
          · exact ih h2
        | cons y ys =>
          rw [hS] at ih
          simp only [List.headI_cons, List.tail_cons, List.getLastD_cons] at ih ⊢
          exact ih

theorem jsSplit_chunk_decomp (d : Nat) (x flat : List Nat) :
    jsSplit d (x ++ flat) =
      (jsSplit d x).dropLast ++ jsSplit d ((jsSplit d x).getLastD [] ++ flat) := by
  have h1 := jsSplit_append d x flat
  have h2 := jsSplit_append d ((jsSplit d x).getLastD []) flat
  rw [jsSplit_no_delim (jsSplit_getLastD_not_mem d x)] at h2
  simp only [List.dropLast_single, List.getLastD_cons, List.getLastD_nil,
    List.nil_append] at h2
  rw [h1, h2]

theorem runChunks_open_spec (chunks : List (List Nat)) :
    ∀ rest : List Nat, 10 ∉ rest →
      (runChunks rest (chunks.map (fun c => (c, true)))).1
          = tailSeg 10 (rest ++ chunks.flatten)
        ∧ ((runChunks rest (chunks.map (fun c => (c, true)))).2).flatten
          = completeSegs 10 (rest ++ chunks.flatten) := by
  induction chunks with
  | nil =>
    intro rest h
    constructor
    · simp [runChunks, tailSeg, jsSplit_no_delim h]
    · simp [runChunks, completeSegs, jsSplit_no_delim h]
  | cons c cs ih =>
    intro rest h
    have hr : 10 ∉ (jsSplit 10 (rest ++ c)).getLastD [] :=
      jsSplit_getLastD_not_mem 10 (rest ++ c)
    have hx := ih ((jsSplit 10 (rest ++ c)).getLastD []) hr
    have hdec := jsSplit_chunk_decomp 10 (rest ++ c) cs.flatten
    have hne := jsSplit_ne_nil 10 ((jsSplit 10 (rest ++ c)).getLastD [] ++ cs.flatten)
    constructor
    · simp only [List.map_cons, runChunks, List.flatten_cons]
      rw [tcpDataStep, hx.1, tailSeg, tailSeg, ← List.append_assoc, hdec,
        getLastD_append_right _ hne]
    · simp only [List.map_cons, runChunks, List.flatten_cons, List.flatten]
      rw [tcpDataStep, hx.2, completeSegs, completeSegs, ← List.append_assoc, hdec,
        dropLast_append_right _ hne, List.filter_append]
      simp

theorem tcpDataStep_snd_flag (o : Bool) (rest c : List Nat) :
    (tcpDataStep o rest c).2 = if o = true then (tcpDataStep true rest c).2 else [] := by
  cases o <;> rfl

theorem runChunks_fst_flag (events : List (List Nat × Bool)) :
    ∀ rest : List Nat,
      (runChunks rest events).1
        = (runChunks rest (events.map (fun e => (e.1, true)))).1 := by
  induction events with
  | nil => intro rest; rfl
  | cons e es ih =>
    intro rest
    simp only [List.map_cons, runChunks]
    exact ih (tcpDataStep e.2 rest e.1).1

theorem runChunks_snd_flag (events : List (List Nat × Bool)) :
    ∀ rest : List Nat,
      (runChunks rest events).2
        = List.zipWith (fun (e : List Nat × Bool) b => if e.2 = true then b else [])
            events (runChunks rest (events.map (fun e => (e.1, true)))).2 := by
  induction events with
  | nil => intro rest; rfl
  | cons e es ih =>
    intro rest
    simp only [List.map_cons, runChunks, List.zipWith_cons_cons]
    rw [tcpDataStep_snd_flag e.2 rest e.1, ih (tcpDataStep e.2 rest e.1).1]
    rfl

theorem runChunks_tail_not_mem (events : List (List Nat × Bool)) :
    ∀ rest : List Nat, 10 ∉ rest → 10 ∉ (runChunks rest events).1 := by
  induction events with
  | nil => intro rest h; exact h
  | cons e es ih =>
    intro rest _
    exact ih (tcpDataStep e.2 rest e.1).1 (jsSplit_getLastD_not_mem 10 (rest ++ e.1))

example :
    (runChunks [] [([97, 10, 98, 10, 99, 10], true)]).2.flatten = [[97], [98], [99]]
  ∧ (runChunks [] [([97, 10, 98, 10, 99, 10], true)]).1 = [] := by decide

example :
    (runChunks [] [([97, 10, 98, 10, 99], true)]).2.flatten = [[97], [98]]
  ∧ (runChunks [] [([97, 10, 98, 10, 99], true)]).1 = [99] := by decide

/-- C1: over any sequence of backend data chunks, the re-segmenting relay of
part_000 delivers exactly the non-empty complete newline-delimited segments
of the concatenated stream, in order (first conjuncts: an all-open run with
and without the end-of-stream flush, which adds the final remainder exactly
once and only if non-empty); and a segment whose delivery-time client
connection is not open is discarded rather than buffered: the flags only
mask the per-event batches and never affect the reassembler state or later
deliveries (last conjunct). -/
theorem c1_reassembler_delivery (chunks : List (List Nat))
    (events : List (List Nat × Bool)) (rest : List Nat) :
    (((runChunks [] (chunks.map (fun c => (c, true)))).2).flatten
        = completeSegs 10 chunks.flatten
      ∧ (runChunks [] (chunks.map (fun c => (c, true)))).1
        = tailSeg 10 chunks.flatten)
  ∧ ((runChunks [] (chunks.map (fun c => (c, true)))).2).flatten
        ++ tcpEndStep true (runChunks [] (chunks.map (fun c => (c, true)))).1
      = completeSegs 10 chunks.flatten
        ++ (if tailSeg 10 chunks.flatten = [] then []
            else [tailSeg 10 chunks.flatten])
  ∧ ((runChunks rest events).1
        = (runChunks rest (events.map (fun e => (e.1, true)))).1
      ∧ (runChunks rest events).2
        = List.zipWith (fun (e : List Nat × Bool) b => if e.2 = true then b else [])
            events (runChunks rest (events.map (fun e => (e.1, true)))).2) := by
  have h := runChunks_open_spec chunks [] (by simp)
  simp only [List.nil_append] at h
  refine ⟨⟨h.2, h.1⟩, ?_, runChunks_fst_flag events rest,
    runChunks_snd_flag events rest⟩
  rw [h.1, h.2]
  by_cases ht : tailSeg 10 chunks.flatten = []
  · simp [tcpEndStep, ht]
  · simp [tcpEndStep, ht]

/-- C7: starting from the initially empty residual tail, after any sequence
of backend data events the Frame Reassembler's tail never contains the
delimiter byte 0x0A. -/
theorem c7_tail_no_delimiter (events : List (List Nat × Bool)) :
    10 ∉ (runChunks [] events).1 :=
  runChunks_tail_not_mem events [] (by simp)

/-- C2: for every client message (as a byte sequence), the bytes written to
the backend end with the delimiter 0x0A; the payload is written unchanged
when its final byte is already the delimiter and with exactly one appended
delimiter otherwise; and the empty message is written as the single
delimiter byte. -/
theorem c2_outbound_framer (buf : List Nat) :
    (ensureNewline buf).getLast? = some 10
  ∧ (buf.getLast? = some 10 → ensureNewline buf = buf)
  ∧ (buf.getLast? ≠ some 10 → ensureNewline buf = buf ++ [10])
  ∧ ensureNewline [] = [10] := by
  refine ⟨?_, ?_, ?_, rfl⟩
  · unfold ensureNewline
    split_ifs with h
    · exact h
    · exact List.getLast?_concat buf
  · intro h
    simp [ensureNewline, h]
  · intro h
    simp [ensureNewline, h]

theorem c2_outbound_framer_witness :
    (ensureNewline [97]).getLast? = some 10 ∧ ensureNewline [97] = [97, 10] :=
  ⟨(c2_outbound_framer [97]).1, (c2_outbound_framer [97]).2.2.1 (by decide)⟩

/-- C9: the two source variants compute identical byte sequences on the
client-to-backend direction (first conjunct, for every message), and differ
on the backend-to-client direction: on the chunk "a\nb" the raw-forwarding
variant delivers the chunk as one message while the re-segmenting variant
delivers only the completed segment "a". -/
theorem c9_variants_agree (data : List Nat) :
    ensureNewline data = ensureNewlineServer data
  ∧ serverTcpData true [97, 10, 98] = [[97, 10, 98]]
  ∧ ((byteRunChunks [] [[97, 10, 98]]).2).flatten = [[97]]
  ∧ ((byteRunChunks [] [[97, 10, 98]]).2).flatten ≠ serverTcpData true [97, 10, 98] :=
  ⟨rfl, by decide, by decide, by decide⟩

theorem count_ping_map_wsSend (msgs : List (List Nat)) :
    (msgs.map Act.wsSend).count Act.ping = 0 := by
  rw [List.count_eq_zero]
  simp

theorem step_trigger_spec (st : SessionState) (t : Trigger) :
    ((step st t.toEvt).2.count Act.tcpDestroy + st.tcpDestroyed.toNat
        = (step st t.toEvt).1.tcpDestroyed.toNat)
  ∧ ((step st t.toEvt).2.count Act.wsCloseCall + (!st.wsOpen).toNat
        = (!(step st t.toEvt).1.wsOpen).toNat)
  ∧ (step st t.toEvt).1.tcpDestroyed = true
  ∧ step (closedState st) t.toEvt = (closedState st, []) := by
  rcases st with ⟨w, tc, td, ka, r⟩
  cases t <;> cases w <;> cases td <;>
    simp [step, Trigger.toEvt, closeAll, netDestroy, closedState,
      List.count_cons, List.count_nil]

theorem runTriggers_spec (ts : List Trigger) :
    ∀ st : SessionState,
      ((runEvts st (ts.map Trigger.toEvt)).2.count Act.tcpDestroy
          + st.tcpDestroyed.toNat
        = (runEvts st (ts.map Trigger.toEvt)).1.tcpDestroyed.toNat)
    ∧ ((runEvts st (ts.map Trigger.toEvt)).2.count Act.wsCloseCall
          + (!st.wsOpen).toNat
        = (!(runEvts st (ts.map Trigger.toEvt)).1.wsOpen).toNat)
    ∧ runEvts (closedState st) (ts.map Trigger.toEvt) = (closedState st, []) := by
  induction ts with
  | nil =>
    intro st
    exact ⟨by simp [runEvts], by simp [runEvts], rfl⟩
  | cons t ts ih =>
    intro st
    have hs := step_trigger_spec st t
    refine ⟨?_, ?_, ?_⟩
    · simp only [List.map_cons, runEvts, List.count_append]
      have h1 := hs.1
      have h2 := (ih (step st t.toEvt).1).1
      omega
    · simp only [List.map_cons, runEvts, List.count_append]
      have h1 := hs.2.1
      have h2 := (ih (step st t.toEvt).1).2.1
      omega
    · simp only [List.map_cons, runEvts, hs.2.2.2, (ih st).2.2]
      simp

theorem run_no_ping (es : List Evt) :
    ∀ st : SessionState, st.kaActive = false →
      (runEvts st es).1.kaActive = false
    ∧ (runEvts st es).2.count Act.ping = 0 := by
  induction es with
  | nil => intro st h; exact ⟨h, rfl⟩
  | cons e es ih =>
    intro st h
    have hstep : (step st e).1.kaActive = false
        ∧ (step st e).2.count Act.ping = 0 := by
      rcases st with ⟨w, tc, td, ka, r⟩
      simp only at h
      subst h
      cases e <;> cases w <;> cases td <;>
        simp [step, closeAll, netDestroy, count_ping_map_wsSend,
          List.count_cons, List.count_nil, tcpEndStep]
    have hrec := ih (step st e).1 hstep.1
    constructor
    · simp only [runEvts]
      exact hrec.1
    · simp only [runEvts, List.count_append, hstep.2, hrec.2]

/-- C4: teardown is idempotent.  Over any sequence of teardown triggers
(client close/error, backend close/error) from any state, the number of
effective backend releases and of client close calls each equals the 0/1
state change they produce (so a full teardown performs each exactly once and
repeated triggers add nothing); after at least one trigger the backend
handle is released; and every trigger fired on an already torn-down Session
leaves the state unchanged and performs no operation. -/
theorem c4_teardown_idempotent (st : SessionState) (t : Trigger)
    (ts : List Trigger) :
    ((runEvts st (ts.map Trigger.toEvt)).2.count Act.tcpDestroy
        + st.tcpDestroyed.toNat
      = (runEvts st (ts.map Trigger.toEvt)).1.tcpDestroyed.toNat)
  ∧ ((runEvts st (ts.map Trigger.toEvt)).2.count Act.wsCloseCall
        + (!st.wsOpen).toNat
      = (!(runEvts st (ts.map Trigger.toEvt)).1.wsOpen).toNat)
  ∧ (runEvts st ((t :: ts).map Trigger.toEvt)).1.tcpDestroyed = true
  ∧ runEvts (closedState st) (ts.map Trigger.toEvt) = (closedState st, []) := by
  have h := runTriggers_spec ts st
  refine ⟨h.1, h.2.1, ?_, h.2.2⟩
  have hs := step_trigger_spec st t
  have h2 := (runTriggers_spec ts (step st t.toEvt).1).1
  rw [hs.2.2.1] at h2
  simp only [List.map_cons, runEvts]
  cases hb : (runEvts (step st t.toEvt).1 (ts.map Trigger.toEvt)).1.tcpDestroyed with
  | false =>
    rw [hb] at h2
    simp at h2
  | true => rfl

/-- C5 counterexample: the claim says the probe timer starts at the
connecting-to-active transition and probes are sent only while active; but
from the handler-creation state — backend connect still in flight, so the
Session is `connecting`, not `active` — a timer tick already sends a ping. -/
theorem c5_probe_counterexample :
    runEvts initSession [Evt.kaTick] = (initSession, [Act.ping])
  ∧ initSession.tcpConnected = false := by
  decide

/-- C5 amended: the probe timer is already running when the Session is
created (while the backend connect is still in flight), so probes can be
sent during `connecting` as well as `active`; the timer is stopped by the
client close event — entry into `closed` — and after that event no probe
signal fires, over any sequence of further events. -/
theorem c5_probe_stopped (st : SessionState) (post : List Evt) :
    initSession.kaActive = true
  ∧ (step st Evt.wsClose).1.kaActive = false
  ∧ (runEvts (step st Evt.wsClose).1 post).2.count Act.ping = 0 := by
  have h1 : (step st Evt.wsClose).1.kaActive = false := by
    rcases st with ⟨w, tc, td, ka, r⟩
    cases w <;> cases td <;> simp [step, closeAll, netDestroy]
  exact ⟨rfl, h1, (run_no_ping post (step st Evt.wsClose).1 h1).2⟩

theorem utf8Step_length_le (b0 : Nat) (t : List Nat) :
    (utf8Step b0 t).2.length ≤ t.length := by
  rcases t with _ | ⟨b1, _ | ⟨b2, _ | ⟨b3, t3⟩⟩⟩ <;>
    (simp only [utf8Step]; split_ifs <;> simp [List.length_cons] <;> omega)

theorem utf8DecodeAux_irrel :
    ∀ (f g : Nat) (l : List Nat), l.length ≤ f → l.length ≤ g →
      utf8DecodeAux f l = utf8DecodeAux g l := by
  intro f
  induction f with
  | zero =>
    intro g l hf _
    cases l with
    | nil => cases g <;> rfl
    | cons b0 t => simp at hf
  | succ f ih =>
    intro g l hf hg
    cases l with
    | nil => cases g <;> rfl
    | cons b0 t =>
      cases g with
      | zero => simp at hg
      | succ g =>
        simp only [utf8DecodeAux]
        congr 1
        have hlen := utf8Step_length_le b0 t
        simp only [List.length_cons] at hf hg
        exact ih g (utf8Step b0 t).2 (by omega) (by omega)

theorem utf8Decode_cons (b0 : Nat) (t : List Nat) :
    utf8Decode (b0 :: t)
      = (utf8Step b0 t).1 :: utf8Decode (utf8Step b0 t).2 := by
  unfold utf8Decode
  simp only [List.length_cons, utf8DecodeAux]
  congr 1
  exact utf8DecodeAux_irrel t.length (utf8Step b0 t).2.length (utf8Step b0 t).2
    (utf8Step_length_le b0 t) le_rfl

theorem utf8Step_ascii {b0 : Nat} (h : b0 < 0x80) (t : List Nat) :
    utf8Step b0 t = (b0, t) := by
  simp [utf8Step, h]

theorem utf8Step_two {b0 b1 : Nat} (h0 : 0xC2 ≤ b0) (h1 : b0 < 0xE0)
    (hc : IsCont b1) (t : List Nat) :
    utf8Step b0 (b1 :: t) = ((b0 - 0xC0) * 0x40 + (b1 - 0x80), t) := by
  have hn0 : ¬b0 < 0x80 := by omega
  have hn1 : ¬b0 < 0xC2 := by omega
  simp [utf8Step, hn0, hn1, h1, hc]

theorem utf8Step_three {b0 b1 b2 : Nat} (h0 : 0xE0 ≤ b0) (h1 : b0 < 0xF0)
    (hc1 : IsCont b1) (hc2 : IsCont b2) (g1 : b0 = 0xE0 → 0xA0 ≤ b1)
    (g2 : b0 = 0xED → b1 < 0xA0) (t : List Nat) :
    utf8Step b0 (b1 :: b2 :: t)
      = ((b0 - 0xE0) * 0x1000 + (b1 - 0x80) * 0x40 + (b2 - 0x80), t) := by
  have hn0 : ¬b0 < 0x80 := by omega
  have hn1 : ¬b0 < 0xC2 := by omega
  have hn2 : ¬b0 < 0xE0 := by omega
  have hcond : IsCont b1 ∧ (b0 = 0xE0 → 0xA0 ≤ b1) ∧ (b0 = 0xED → b1 < 0xA0) :=
    ⟨hc1, g1, g2⟩
  simp only [utf8Step, if_neg hn0, if_neg hn1, if_neg hn2, if_pos h1,
    if_pos hcond, if_pos hc2]

theorem utf8Step_four {b0 b1 b2 b3 : Nat} (h0 : 0xF0 ≤ b0) (h1 : b0 ≤ 0xF4)
    (hc1 : IsCont b1) (hc2 : IsCont b2) (hc3 : IsCont b3)
    (g1 : b0 = 0xF0 → 0x90 ≤ b1) (g2 : b0 = 0xF4 → b1 < 0x90) (t : List Nat) :
    utf8Step b0 (b1 :: b2 :: b3 :: t)
      = ((b0 - 0xF0) * 0x40000 + (b1 - 0x80) * 0x1000 + (b2 - 0x80) * 0x40
          + (b3 - 0x80), t) := by
  have hn0 : ¬b0 < 0x80 := by omega
  have hn1 : ¬b0 < 0xC2 := by omega
  have hn2 : ¬b0 < 0xE0 := by omega
  have hn3 : ¬b0 < 0xF0 := by omega
  have h5 : b0 < 0xF5 := by omega
  have hcond : IsCont b1 ∧ (b0 = 0xF0 → 0x90 ≤ b1) ∧ (b0 = 0xF4 → b1 < 0x90) :=
    ⟨hc1, g1, g2⟩
  simp only [utf8Step, if_neg hn0, if_neg hn1, if_neg hn2, if_neg hn3,
    if_pos h5, if_pos hcond, if_pos hc2, if_pos hc3]

theorem utf8Decode_ascii {b0 : Nat} (h : b0 < 0x80) (t : List Nat) :
    utf8Decode (b0 :: t) = b0 :: utf8Decode t := by
  rw [utf8Decode_cons, utf8Step_ascii h]

theorem utf8Decode_two {b0 b1 : Nat} (h0 : 0xC2 ≤ b0) (h1 : b0 < 0xE0)
    (hc : IsCont b1) (t : List Nat) :
    utf8Decode (b0 :: b1 :: t)
      = ((b0 - 0xC0) * 0x40 + (b1 - 0x80)) :: utf8Decode t := by
  rw [utf8Decode_cons, utf8Step_two h0 h1 hc]

theorem utf8Decode_three {b0 b1 b2 : Nat} (h0 : 0xE0 ≤ b0) (h1 : b0 < 0xF0)
    (hc1 : IsCont b1) (hc2 : IsCont b2) (g1 : b0 = 0xE0 → 0xA0 ≤ b1)
    (g2 : b0 = 0xED → b1 < 0xA0) (t : List Nat) :
    utf8Decode (b0 :: b1 :: b2 :: t)
      = ((b0 - 0xE0) * 0x1000 + (b1 - 0x80) * 0x40 + (b2 - 0x80))
          :: utf8Decode t := by
  rw [utf8Decode_cons, utf8Step_three h0 h1 hc1 hc2 g1 g2]

theorem utf8Decode_four {b0 b1 b2 b3 : Nat} (h0 : 0xF0 ≤ b0) (h1 : b0 ≤ 0xF4)
    (hc1 : IsCont b1) (hc2 : IsCont b2) (hc3 : IsCont b3)
    (g1 : b0 = 0xF0 → 0x90 ≤ b1) (g2 : b0 = 0xF4 → b1 < 0x90) (t : List Nat) :
    utf8Decode (b0 :: b1 :: b2 :: b3 :: t)
      = ((b0 - 0xF0) * 0x40000 + (b1 - 0x80) * 0x1000 + (b2 - 0x80) * 0x40
          + (b3 - 0x80)) :: utf8Decode t := by
  rw [utf8Decode_cons, utf8Step_four h0 h1 hc1 hc2 hc3 g1 g2]

theorem utf8Decode_append_valid {a : List Nat} (h : ValidUtf8 a)
    (b : List Nat) :
    utf8Decode (a ++ b) = utf8Decode a ++ utf8Decode b := by
  induction h with
  | nil => rfl
  | @one c t hb ht ih =>
    rw [List.cons_append, utf8Decode_ascii hb, utf8Decode_ascii hb, ih,
      List.cons_append]
  | @two b0 b1 t h0 h1 hc ht ih =>
    rw [List.cons_append, List.cons_append, utf8Decode_two h0 h1 hc,
      utf8Decode_two h0 h1 hc, ih, List.cons_append]
  | @three b0 b1 b2 t h0 h1 hc1 hc2 g1 g2 ht ih =>
    rw [List.cons_append, List.cons_append, List.cons_append,
      utf8Decode_three h0 h1 hc1 hc2 g1 g2,
      utf8Decode_three h0 h1 hc1 hc2 g1 g2, ih, List.cons_append]
  | @four b0 b1 b2 b3 t h0 h1 hc1 hc2 hc3 g1 g2 ht ih =>
    rw [List.cons_append, List.cons_append, List.cons_append, List.cons_append,
      utf8Decode_four h0 h1 hc1 hc2 hc3 g1 g2,
      utf8Decode_four h0 h1 hc1 hc2 hc3 g1 g2, ih, List.cons_append]

theorem utf8Encode_decode {a : List Nat} (h : ValidUtf8 a) :
    utf8Encode (utf8Decode a) = a := by
  induction h with
  | nil => rfl
  | @one c t hb ht ih =>
    rw [utf8Decode_ascii hb]
    simp only [utf8Encode]
    rw [ih, utf8EncodeChar, if_pos hb]
    rfl
  | @two b0 b1 t h0 h1 hc ht ih =>
    obtain ⟨hcl, hcu⟩ := hc
    rw [utf8Decode_two h0 h1 ⟨hcl, hcu⟩]
    simp only [utf8Encode]
    rw [ih]
    have hge : ¬((b0 - 0xC0) * 0x40 + (b1 - 0x80) < 0x80) := by omega
    have hlt : (b0 - 0xC0) * 0x40 + (b1 - 0x80) < 0x800 := by omega
    rw [utf8EncodeChar, if_neg hge, if_pos hlt]
    have e1 : 0xC0 + ((b0 - 0xC0) * 0x40 + (b1 - 0x80)) / 0x40 = b0 := by omega
    have e2 : 0x80 + ((b0 - 0xC0) * 0x40 + (b1 - 0x80)) % 0x40 = b1 := by omega
    rw [e1, e2]
    rfl
  | @three b0 b1 b2 t h0 h1 hc1 hc2 g1 g2 ht ih =>
    obtain ⟨hc1l, hc1u⟩ := hc1
    obtain ⟨hc2l, hc2u⟩ := hc2
    rw [utf8Decode_three h0 h1 ⟨hc1l, hc1u⟩ ⟨hc2l, hc2u⟩ g1 g2]
    simp only [utf8Encode]
    rw [ih]
    have hge2 :
        ¬((b0 - 0xE0) * 0x1000 + (b1 - 0x80) * 0x40 + (b2 - 0x80) < 0x800) := by
      by_cases hE : b0 = 0xE0
      · have := g1 hE
        omega
      · omega
    have hge1 :
        ¬((b0 - 0xE0) * 0x1000 + (b1 - 0x80) * 0x40 + (b2 - 0x80) < 0x80) := by
      omega
    have hlt :
        (b0 - 0xE0) * 0x1000 + (b1 - 0x80) * 0x40 + (b2 - 0x80) < 0x10000 := by
      omega
    rw [utf8EncodeChar, if_neg hge1, if_neg hge2, if_pos hlt]
    have e1 :
        0xE0 + ((b0 - 0xE0) * 0x1000 + (b1 - 0x80) * 0x40 + (b2 - 0x80)) / 0x1000
          = b0 := by omega
    have e2 :
        0x80 + ((b0 - 0xE0) * 0x1000 + (b1 - 0x80) * 0x40 + (b2 - 0x80)) / 0x40 % 0x40
          = b1 := by omega
    have e3 :
        0x80 + ((b0 - 0xE0) * 0x1000 + (b1 - 0x80) * 0x40 + (b2 - 0x80)) % 0x40
          = b2 := by omega
    rw [e1, e2, e3]
    rfl
  | @four b0 b1 b2 b3 t h0 h1 hc1 hc2 hc3 g1 g2 ht ih =>
    obtain ⟨hc1l, hc1u⟩ := hc1
    obtain ⟨hc2l, hc2u⟩ := hc2
    obtain ⟨hc3l, hc3u⟩ := hc3
    rw [utf8Decode_four h0 h1 ⟨hc1l, hc1u⟩ ⟨hc2l, hc2u⟩ ⟨hc3l, hc3u⟩ g1 g2]
    simp only [utf8Encode]
    rw [ih]
    have hge3 :
        ¬((b0 - 0xF0) * 0x40000 + (b1 - 0x80) * 0x1000 + (b2 - 0x80) * 0x40
            + (b3 - 0x80) < 0x10000) := by
      by_cases hF : b0 = 0xF0
      · have := g1 hF
        omega
      · omega
    have hge1 :
        ¬((b0 - 0xF0) * 0x40000 + (b1 - 0x80) * 0x1000 + (b2 - 0x80) * 0x40
            + (b3 - 0x80) < 0x80) := by omega
    have hge2 :
        ¬((b0 - 0xF0) * 0x40000 + (b1 - 0x80) * 0x1000 + (b2 - 0x80) * 0x40
            + (b3 - 0x80) < 0x800) := by omega
    rw [utf8EncodeChar, if_neg hge1, if_neg hge2, if_neg hge3]
    have e1 :
        0xF0 + ((b0 - 0xF0) * 0x40000 + (b1 - 0x80) * 0x1000 + (b2 - 0x80) * 0x40
            + (b3 - 0x80)) / 0x40000 = b0 := by omega
    have e2 :
        0x80 + ((b0 - 0xF0) * 0x40000 + (b1 - 0x80) * 0x1000 + (b2 - 0x80) * 0x40
            + (b3 - 0x80)) / 0x1000 % 0x40 = b1 := by omega
    have e3 :
        0x80 + ((b0 - 0xF0) * 0x40000 + (b1 - 0x80) * 0x1000 + (b2 - 0x80) * 0x40
            + (b3 - 0x80)) / 0x40 % 0x40 = b2 := by omega
    have e4 :
        0x80 + ((b0 - 0xF0) * 0x40000 + (b1 - 0x80) * 0x1000 + (b2 - 0x80) * 0x40
            + (b3 - 0x80)) % 0x40 = b3 := by omega
    rw [e1, e2, e3, e4]
    rfl

theorem utf8Decode_eq_nil {a : List Nat} (h : ValidUtf8 a) :
    utf8Decode a = [] ↔ a = [] := by
  cases h with
  | nil => simp [utf8Decode, utf8DecodeAux]
  | one hb ht => rw [utf8Decode_ascii hb]; simp
  | two h0 h1 hc => rw [utf8Decode_two h0 h1 hc]; simp
  | three h0 h1 hc1 hc2 g1 g2 => rw [utf8Decode_three h0 h1 hc1 hc2 g1 g2]; simp
  | four h0 h1 hc1 hc2 hc3 g1 g2 =>
    rw [utf8Decode_four h0 h1 hc1 hc2 hc3 g1 g2]; simp

theorem ValidUtf8.append {a b : List Nat} (ha : ValidUtf8 a)
    (hb : ValidUtf8 b) : ValidUtf8 (a ++ b) := by
  induction ha with
  | nil => exact hb
  | one h1 _ ih => exact ValidUtf8.one h1 ih
  | two h0 h1 hc _ ih => exact ValidUtf8.two h0 h1 hc ih
  | three h0 h1 hc1 hc2 g1 g2 _ ih => exact ValidUtf8.three h0 h1 hc1 hc2 g1 g2 ih
  | four h0 h1 hc1 hc2 hc3 g1 g2 _ ih =>
    exact ValidUtf8.four h0 h1 hc1 hc2 hc3 g1 g2 ih

theorem jsSplit_utf8Decode {a : List Nat} (h : ValidUtf8 a) :
    jsSplit 10 (utf8Decode a) = (jsSplit 10 a).map utf8Decode := by
  induction h with
  | nil => rfl
  | @one b t hb ht ih =>
    rw [utf8Decode_ascii hb]
    by_cases hb10 : b = 10
    · rw [hb10, jsSplit_cons_eq, jsSplit_cons_eq, List.map_cons, ih]
      rfl
    · rw [jsSplit_cons_ne hb10, jsSplit_cons_ne hb10, ih]
      cases hS : jsSplit 10 t with
      | nil => exact absurd hS (jsSplit_ne_nil 10 t)
      | cons s ss =>
        simp only [List.map_cons, List.headI_cons, List.tail_cons]
        rw [utf8Decode_ascii hb]
  | @two b0 b1 t h0 h1 hc ht ih =>
    have hne0 : b0 ≠ 10 := by omega
    have hne1 : b1 ≠ 10 := by
      obtain ⟨hl, _⟩ := hc
      omega
    have hnecp : (b0 - 0xC0) * 0x40 + (b1 - 0x80) ≠ 10 := by omega
    rw [utf8Decode_two h0 h1 hc, jsSplit_cons_ne hnecp, ih,
      jsSplit_cons_ne hne0, jsSplit_cons_ne hne1]
    cases hS : jsSplit 10 t with
    | nil => exact absurd hS (jsSplit_ne_nil 10 t)
    | cons s ss =>
      simp only [List.map_cons, List.headI_cons, List.tail_cons]
      rw [utf8Decode_two h0 h1 hc]
  | @three b0 b1 b2 t h0 h1 hc1 hc2 g1 g2 ht ih =>
    have hne0 : b0 ≠ 10 := by omega
    have hne1 : b1 ≠ 10 := by
      obtain ⟨hl, _⟩ := hc1
      omega
    have hne2 : b2 ≠ 10 := by
      obtain ⟨hl, _⟩ := hc2
      omega
    have hnecp :
        (b0 - 0xE0) * 0x1000 + (b1 - 0x80) * 0x40 + (b2 - 0x80) ≠ 10 := by
      obtain ⟨h1l, h1u⟩ := hc1
      obtain ⟨h2l, h2u⟩ := hc2
      by_cases hE : b0 = 0xE0
      · have := g1 hE
        omega
      · omega
    rw [utf8Decode_three h0 h1 hc1 hc2 g1 g2, jsSplit_cons_ne hnecp, ih,
      jsSplit_cons_ne hne0, jsSplit_cons_ne hne1, jsSplit_cons_ne hne2]
    cases hS : jsSplit 10 t with
    | nil => exact absurd hS (jsSplit_ne_nil 10 t)
    | cons s ss =>
      simp only [List.map_cons, List.headI_cons, List.tail_cons]
      rw [utf8Decode_three h0 h1 hc1 hc2 g1 g2]
  | @four b0 b1 b2 b3 t h0 h1 hc1 hc2 hc3 g1 g2 ht ih =>
    have hne0 : b0 ≠ 10 := by omega
    have hne1 : b1 ≠ 10 := by
      obtain ⟨hl, _⟩ := hc1
      omega
    have hne2 : b2 ≠ 10 := by
      obtain ⟨hl, _⟩ := hc2
      omega
    have hne3 : b3 ≠ 10 := by
      obtain ⟨hl, _⟩ := hc3
      omega
    have hnecp :
        (b0 - 0xF0) * 0x40000 + (b1 - 0x80) * 0x1000 + (b2 - 0x80) * 0x40
            + (b3 - 0x80) ≠ 10 := by
      obtain ⟨h1l, h1u⟩ := hc1
      obtain ⟨h2l, h2u⟩ := hc2
      obtain ⟨h3l, h3u⟩ := hc3
      by_cases hF : b0 = 0xF0
      · have := g1 hF
        omega
      · omega
    rw [utf8Decode_four h0 h1 hc1 hc2 hc3 g1 g2, jsSplit_cons_ne hnecp, ih,
      jsSplit_cons_ne hne0, jsSplit_cons_ne hne1, jsSplit_cons_ne hne2,
      jsSplit_cons_ne hne3]
    cases hS : jsSplit 10 t with
    | nil => exact absurd hS (jsSplit_ne_nil 10 t)
    | cons s ss =>
      simp only [List.map_cons, List.headI_cons, List.tail_cons]
      rw [utf8Decode_four h0 h1 hc1 hc2 hc3 g1 g2]

theorem jsSplit_valid {a : List Nat} (h : ValidUtf8 a) :
    ∀ s ∈ jsSplit 10 a, ValidUtf8 s := by
  induction h with
  | nil =>
    intro s hs
    simp only [jsSplit, List.mem_singleton] at hs
    rw [hs]
    exact ValidUtf8.nil
  | @one b t hb ht ih =>
    intro s hs
    by_cases hb10 : b = 10
    · rw [hb10, jsSplit_cons_eq] at hs
      rcases List.mem_cons.mp hs with h1 | h2
      · rw [h1]
        exact ValidUtf8.nil
      · exact ih s h2
    · rw [jsSplit_cons_ne hb10] at hs
      cases hS : jsSplit 10 t with
      | nil => exact absurd hS (jsSplit_ne_nil 10 t)
      | cons s0 ss =>
        rw [hS] at hs
        simp only [List.headI_cons, List.tail_cons] at hs
        rcases List.mem_cons.mp hs with h1 | h2
        · rw [h1]
          exact ValidUtf8.one hb (ih s0 (by rw [hS]; exact List.mem_cons_self s0 ss))
        · exact ih s (by rw [hS]; exact List.mem_cons_of_mem s0 h2)
  | @two b0 b1 t h0 h1 hc ht ih =>
    intro s hs
    have hne0 : b0 ≠ 10 := by omega
    have hne1 : b1 ≠ 10 := by
      obtain ⟨hl, _⟩ := hc
      omega
    rw [jsSplit_cons_ne hne0, jsSplit_cons_ne hne1] at hs
    cases hS : jsSplit 10 t with
    | nil => exact absurd hS (jsSplit_ne_nil 10 t)
    | cons s0 ss =>
      rw [hS] at hs
      simp only [List.headI_cons, List.tail_cons] at hs
      rcases List.mem_cons.mp hs with hm1 | hm2
      · rw [hm1]
        exact ValidUtf8.two h0 h1 hc
          (ih s0 (by rw [hS]; exact List.mem_cons_self s0 ss))
      · exact ih s (by rw [hS]; exact List.mem_cons_of_mem s0 hm2)
  | @three b0 b1 b2 t h0 h1 hc1 hc2 g1 g2 ht ih =>
    intro s hs
    have hne0 : b0 ≠ 10 := by omega
    have hne1 : b1 ≠ 10 := by
      obtain ⟨hl, _⟩ := hc1
      omega
    have hne2 : b2 ≠ 10 := by
      obtain ⟨hl, _⟩ := hc2
      omega
    rw [jsSplit_cons_ne hne0, jsSplit_cons_ne hne1, jsSplit_cons_ne hne2] at hs
    cases hS : jsSplit 10 t with
    | nil => exact absurd hS (jsSplit_ne_nil 10 t)
    | cons s0 ss =>
      rw [hS] at hs
      simp only [List.headI_cons, List.tail_cons] at hs
      rcases List.mem_cons.mp hs with hm1 | hm2
      · rw [hm1]
        exact ValidUtf8.three h0 h1 hc1 hc2 g1 g2
          (ih s0 (by rw [hS]; exact List.mem_cons_self s0 ss))
      · exact ih s (by rw [hS]; exact List.mem_cons_of_mem s0 hm2)
  | @four b0 b1 b2 b3 t h0 h1 hc1 hc2 hc3 g1 g2 ht ih =>
    intro s hs
    have hne0 : b0 ≠ 10 := by omega
    have hne1 : b1 ≠ 10 := by
      obtain ⟨hl, _⟩ := hc1
      omega
    have hne2 : b2 ≠ 10 := by
      obtain ⟨hl, _⟩ := hc2
      omega
    have hne3 : b3 ≠ 10 := by
      obtain ⟨hl, _⟩ := hc3
      omega
    rw [jsSplit_cons_ne hne0, jsSplit_cons_ne hne1, jsSplit_cons_ne hne2,
      jsSplit_cons_ne hne3] at hs
    cases hS : jsSplit 10 t with
    | nil => exact absurd hS (jsSplit_ne_nil 10 t)
    | cons s0 ss =>
      rw [hS] at hs
      simp only [List.headI_cons, List.tail_cons] at hs
      rcases List.mem_cons.mp hs with hm1 | hm2
      · rw [hm1]
        exact ValidUtf8.four h0 h1 hc1 hc2 hc3 g1 g2
          (ih s0 (by rw [hS]; exact List.mem_cons_self s0 ss))
      · exact ih s (by rw [hS]; exact List.mem_cons_of_mem s0 hm2)

theorem ValidUtf8.flattenValid {cs : List (List Nat)}
    (h : ∀ c ∈ cs, ValidUtf8 c) : ValidUtf8 cs.flatten := by
  induction cs with
  | nil => exact ValidUtf8.nil
  | cons c cs ih =>
    rw [List.flatten_cons]
    exact ValidUtf8.append (h c (List.mem_cons_self c cs))
      (ih fun x hx => h x (List.mem_cons_of_mem c hx))

theorem byteRunChunks_eq (cs : List (List Nat)) :
    ∀ rest : List Nat,
      (byteRunChunks rest cs).1
        = (runChunks rest ((cs.map utf8Decode).map (fun c => (c, true)))).1
    ∧ (byteRunChunks rest cs).2
        = ((runChunks rest ((cs.map utf8Decode).map (fun c => (c, true)))).2).map
            (List.map utf8Encode) := by
  induction cs with
  | nil => intro rest; exact ⟨rfl, rfl⟩
  | cons c cs ih =>
    intro rest
    simp only [byteRunChunks, List.map_cons, runChunks, List.map_cons]
    exact ⟨(ih (tcpDataStep true rest (utf8Decode c)).1).1,
      by rw [(ih (tcpDataStep true rest (utf8Decode c)).1).2]⟩

theorem flatten_map_decode {cs : List (List Nat)} (h : ∀ c ∈ cs, ValidUtf8 c) :
    (cs.map utf8Decode).flatten = utf8Decode cs.flatten := by
  induction cs with
  | nil => rfl
  | cons c cs ih =>
    rw [List.map_cons, List.flatten_cons, List.flatten_cons,
      utf8Decode_append_valid (h c (List.mem_cons_self c cs)),
      ih fun x hx => h x (List.mem_cons_of_mem c hx)]

theorem filter_ne_nil_map_decode (X : List (List Nat))
    (h : ∀ s ∈ X, ValidUtf8 s) :
    (X.map utf8Decode).filter (fun m => decide (m ≠ []))
      = (X.filter (fun m => decide (m ≠ []))).map utf8Decode := by
  induction X with
  | nil => rfl
  | cons s X ih =>
    have hs := h s (List.mem_cons_self s X)
    have hX := fun x hx => h x (List.mem_cons_of_mem s hx)
    have hih := ih hX
    by_cases hnil : s = []
    · have hd : utf8Decode s = [] := (utf8Decode_eq_nil hs).mpr hnil
      simp [hnil, hd]
      simpa using hih
    · have hd : utf8Decode s ≠ [] := fun he => hnil ((utf8Decode_eq_nil hs).mp he)
      simp [hnil, hd]
      simpa using hih

theorem getLastD_map_decode (X : List (List Nat)) (hne : X ≠ []) :
    (X.map utf8Decode).getLastD [] = utf8Decode (X.getLastD []) := by
  induction X with
  | nil => exact absurd rfl hne
  | cons s X ih =>
    cases X with
    | nil => rfl
    | cons s2 X2 =>
      rw [List.map_cons, List.getLastD_cons, List.getLastD_cons,
        getLastD_irrel (l := (s2 :: X2).map utf8Decode) (by simp)
          (utf8Decode s) [],
        getLastD_irrel (l := s2 :: X2) (by simp) s [], ih (by simp)]

theorem map_encode_decode (X : List (List Nat)) (h : ∀ s ∈ X, ValidUtf8 s) :
    (X.map utf8Decode).map utf8Encode = X := by
  induction X with
  | nil => rfl
  | cons s X ih =>
    rw [List.map_cons, List.map_cons,
      utf8Encode_decode (h s (List.mem_cons_self s X)),
      ih fun x hx => h x (List.mem_cons_of_mem s hx)]

theorem completeSegs_valid {F : List Nat} (h : ValidUtf8 F) :
    ∀ s ∈ completeSegs 10 F, ValidUtf8 s := by
  intro s hs
  unfold completeSegs at hs
  exact jsSplit_valid h s
    (List.mem_of_mem_dropLast (List.mem_filter.mp hs).1)

theorem getLastD_mem {α : Type} :
    ∀ l : List α, l ≠ [] → ∀ d : α, l.getLastD d ∈ l := by
  intro l
  induction l with
  | nil => intro h; exact absurd rfl h
  | cons a t ih =>
    intro _ d
    rw [List.getLastD_cons]
    cases t with
    | nil => simp [List.getLastD_nil]
    | cons b t2 => exact List.mem_cons_of_mem a (ih (by simp) a)

theorem tailSeg_valid {F : List Nat} (h : ValidUtf8 F) :
    ValidUtf8 (tailSeg 10 F) := by
  unfold tailSeg
  exact jsSplit_valid h _ (getLastD_mem (jsSplit 10 F) (jsSplit_ne_nil 10 F) [])

/-- C8 counterexample: the claim asserts the relay is byte-transparent
modulo delimiter handling regardless of whether the bytes are valid UTF-8;
but the handler decodes each chunk with `toString('utf8')`, so for the
backend bytes 0xFF 0x41 0x0A the only complete segment is 0xFF 0x41 while
the client receives the replacement-character bytes EF BF BD 41 — a byte was
altered. -/
theorem c8_byte_transparency_counterexample :
    completeSegs 10 ([[255, 65, 10]].flatten) = [[255, 65]]
  ∧ byteDeliveredAll [[255, 65, 10]] = [[239, 191, 189, 65]]
  ∧ byteDeliveredAll [[255, 65, 10]] ≠ [[255, 65]] := by
  decide

/-- C8 amended: the backend-to-client relay is a pure byte re-segmentation —
each delivered client message consists of exactly the bytes of its
delimiter-bounded backend segment, with only the delimiter stripped and
empty segments dropped, and the final remainder flushed at stream end —
provided every received chunk is valid UTF-8; chunks that are not valid
UTF-8 pass through the per-chunk `toString('utf8')` decode and have their
malformed bytes replaced by U+FFFD. -/
theorem c8_byte_resegmentation (cs : List (List Nat))
    (h : ∀ c ∈ cs, ValidUtf8 c) :
    byteDeliveredAll cs
      = completeSegs 10 cs.flatten
        ++ (if tailSeg 10 cs.flatten = [] then []
            else [tailSeg 10 cs.flatten]) := by
  have hF : ValidUtf8 cs.flatten := ValidUtf8.flattenValid h
  have hrun := runChunks_open_spec (cs.map utf8Decode) [] (by simp)
  simp only [List.nil_append] at hrun
  have hbr := byteRunChunks_eq cs []
  have hfl : (cs.map utf8Decode).flatten = utf8Decode cs.flatten :=
    flatten_map_decode h
  rw [hfl] at hrun
  have htail : tailSeg 10 (utf8Decode cs.flatten)
      = utf8Decode (tailSeg 10 cs.flatten) := by
    unfold tailSeg
    rw [jsSplit_utf8Decode hF]
    exact getLastD_map_decode _ (jsSplit_ne_nil 10 cs.flatten)
  have hsegs : completeSegs 10 (utf8Decode cs.flatten)
      = (completeSegs 10 cs.flatten).map utf8Decode := by
    unfold completeSegs
    rw [jsSplit_utf8Decode hF, ← List.map_dropLast]
    exact filter_ne_nil_map_decode _
      (fun s hs => jsSplit_valid hF s (List.mem_of_mem_dropLast hs))
  unfold byteDeliveredAll
  rw [hbr.1, hbr.2, hrun.1, htail, ← List.map_flatten, hrun.2, hsegs,
    map_encode_decode _ (completeSegs_valid hF)]
  have hiff := utf8Decode_eq_nil (tailSeg_valid hF)
  by_cases ht : tailSeg 10 cs.flatten = []
  · rw [if_pos (hiff.mpr ht), if_pos ht]
  · rw [if_neg (fun he => ht (hiff.mp he)), if_neg ht,
      utf8Encode_decode (tailSeg_valid hF)]

theorem c8_byte_resegmentation_witness :
    (∀ c ∈ [[104, 10, 105]], ValidUtf8 c)
  ∧ byteDeliveredAll [[104, 10, 105]] = [[104], [105]] := by
  have hv : ∀ c ∈ [[104, 10, 105]], ValidUtf8 c := by
    intro c hc
    simp only [List.mem_singleton] at hc
    rw [hc]
    exact ValidUtf8.one (by omega)
      (ValidUtf8.one (by omega) (ValidUtf8.one (by omega) ValidUtf8.nil))
  refine ⟨hv, ?_⟩
  rw [c8_byte_resegmentation [[104, 10, 105]] hv]
  decide

theorem b64Value_b64Char : ∀ q < 64, b64Value (b64Char q) = some q := by
  decide

theorem b64Value_61 : b64Value 61 = none := by decide

theorem base64Decode_encode :
    ∀ (n : Nat) (l : List Nat), l.length ≤ n → (∀ b ∈ l, b < 256) →
      base64Decode (base64Encode l) = l := by
  intro n
  induction n with
  | zero =>
    intro l hl _
    cases l with
    | nil => rfl
    | cons b t => simp at hl
  | succ n ih =>
    intro l hl hb
    rcases l with _ | ⟨b0, _ | ⟨b1, _ | ⟨b2, rest⟩⟩⟩
    · rfl
    · have h0 := hb b0 (by simp)
      unfold base64Encode base64Decode
      rw [List.filterMap_cons, List.filterMap_cons, List.filterMap_cons,
        List.filterMap_cons, List.filterMap_nil,
        b64Value_b64Char _ (by omega), b64Value_b64Char _ (by omega), b64Value_61]
      simp only [decodeSextets, List.cons.injEq, and_true]
      omega
    · have h0 := hb b0 (by simp)
      have h1 := hb b1 (by simp)
      unfold base64Encode base64Decode
      rw [List.filterMap_cons, List.filterMap_cons, List.filterMap_cons,
        List.filterMap_cons, List.filterMap_nil,
        b64Value_b64Char _ (by omega), b64Value_b64Char _ (by omega),
        b64Value_b64Char _ (by omega), b64Value_61]
      simp only [decodeSextets, List.cons.injEq, and_true]
      constructor
      · omega
      · omega
    · have h0 := hb b0 (by simp)
      have h1 := hb b1 (by simp)
      have h2 := hb b2 (by simp)
      have hrest := ih rest (by simp at hl; omega)
        (fun b hm => hb b (by simp [hm]))
      unfold base64Decode at hrest
      unfold base64Encode base64Decode
      rw [List.filterMap_cons, List.filterMap_cons, List.filterMap_cons,
        List.filterMap_cons,
        b64Value_b64Char _ (by omega), b64Value_b64Char _ (by omega),
        b64Value_b64Char _ (by omega), b64Value_b64Char _ (by omega)]
      simp only [decodeSextets, List.cons.injEq]
      refine ⟨by omega, by omega, by omega, hrest⟩

theorem base64_roundtrip (l : List Nat) (hb : ∀ b ∈ l, b < 256) :
    base64Decode (base64Encode l) = l :=
  base64Decode_encode l.length l le_rfl hb

theorem valDigits_concat (a : List Nat) (c : Nat) :
    valDigits (a ++ [c]) = valDigits a * 10 + (c - 48) := by
  unfold valDigits
  rw [List.foldl_append]
  rfl

theorem natDigitsAux_spec :
    ∀ f n : Nat, n ≤ f →
      IsDigits (natDigitsAux f n) ∧ valDigits (natDigitsAux f n) = n
        ∧ natDigitsAux f n ≠ [] := by
  intro f
  induction f with
  | zero =>
    intro n hn
    have hz : n = 0 := by omega
    rw [hz]
    exact ⟨by decide, by decide, by decide⟩
  | succ f ih =>
    intro n hn
    by_cases h10 : n < 10
    · simp only [natDigitsAux, if_pos h10]
      refine ⟨?_, ?_, by simp⟩
      · intro c hc
        simp only [List.mem_singleton] at hc
        omega
      · simp only [valDigits, List.foldl_cons, List.foldl_nil]
        omega
    · simp only [natDigitsAux, if_neg h10]
      have hrec := ih (n / 10) (by omega)
      refine ⟨?_, ?_, by simp [hrec.2.2]⟩
      · intro c hc
        rcases List.mem_append.mp hc with hm | hm
        · exact hrec.1 c hm
        · simp only [List.mem_singleton] at hm
          omega
      · rw [valDigits_concat, hrec.2.1]
        omega

theorem natDigits_spec (n : Nat) :
    IsDigits (natDigits n) ∧ valDigits (natDigits n) = n ∧ natDigits n ≠ [] :=
  natDigitsAux_spec n n le_rfl

theorem jsNumber_digits (s : List Nat) (hd : IsDigits s) (hne : s ≠ []) :
    jsNumber s = some ((valDigits s : Int)) := by
  cases s with
  | nil => exact absurd rfl hne
  | cons c cs =>
    have hc := hd c (List.mem_cons_self c cs)
    have hc45 : c ≠ 45 := by omega
    unfold jsNumber
    split
    · simp_all
    · rename_i heq
      rw [List.cons.injEq] at heq
      exact absurd heq.1 hc45
    · rw [if_pos hd]

theorem jsSplit_append_delim {d : Nat} {a : List Nat} (h : d ∉ a)
    (b : List Nat) : jsSplit d (a ++ d :: b) = a :: jsSplit d b := by
  induction a with
  | nil => rw [List.nil_append, jsSplit_cons_eq]
  | cons c t ih =>
    have hc : c ≠ d := fun he => h (he ▸ List.mem_cons_self c t)
    have ht : d ∉ t := fun hm => h (List.mem_cons_of_mem c hm)
    rw [List.cons_append, jsSplit_cons_ne hc, ih ht]
    simp

theorem decideOutcome_of_split {decoded h p : List Nat} {ss : List (List Nat)}
    (hsplit : jsSplit 58 decoded = h :: p :: ss) (hne : h ≠ []) (v : Int)
    (hv : jsNumber p = some v) (hv0 : v ≠ 0) :
    decideOutcome decoded = Outcome.connect h v := by
  unfold decideOutcome
  rw [hsplit]
  simp only [List.headI_cons, List.getElem?_cons_succ, List.getElem?_cons_zero,
    jsNumberU]
  rw [hv]
  rw [if_neg]
  · rfl
  · intro hor
    rcases hor with h1 | h2 | h3
    · exact hne h1
    · exact Option.noConfusion h2
    · exact hv0 (Option.some.injEq _ _ ▸ h3)

theorem utf8EncodeChar_lt256 {c : Nat} (h : c < 0x110000) :
    ∀ b ∈ utf8EncodeChar c, b < 256 := by
  intro b hb
  unfold utf8EncodeChar at hb
  split_ifs at hb <;> simp only [List.mem_cons, List.mem_singleton,
    List.not_mem_nil, or_false] at hb
  · omega
  · rcases hb with h1 | h1 <;> omega
  · rcases hb with h1 | h1 | h1 <;> omega
  · rcases hb with h1 | h1 | h1 | h1 <;> omega

theorem utf8Encode_lt256 {l : List Nat} (h : ∀ c ∈ l, ValidScalar c) :
    ∀ b ∈ utf8Encode l, b < 256 := by
  induction l with
  | nil => intro b hb; simp [utf8Encode] at hb
  | cons c t ih =>
    intro b hb
    simp only [utf8Encode] at hb
    rcases List.mem_append.mp hb with hm | hm
    · exact utf8EncodeChar_lt256 (h c (List.mem_cons_self c t)).1 b hm
    · exact ih (fun x hx => h x (List.mem_cons_of_mem c hx)) b hm

theorem utf8Decode_encodeChar {c : Nat} (h : ValidScalar c) (t : List Nat) :
    utf8Decode (utf8EncodeChar c ++ t) = c :: utf8Decode t := by
  obtain ⟨hlt, hsur⟩ := h
  by_cases h1 : c < 0x80
  · rw [show utf8EncodeChar c = [c] from by rw [utf8EncodeChar, if_pos h1],
      List.singleton_append]
    exact utf8Decode_ascii h1 t
  · by_cases h2 : c < 0x800
    · rw [show utf8EncodeChar c = [0xC0 + c / 0x40, 0x80 + c % 0x40] from by
        rw [utf8EncodeChar, if_neg h1, if_pos h2]]
      rw [List.cons_append, List.cons_append, List.nil_append]
      rw [utf8Decode_two (by omega) (by omega) ⟨by omega, by omega⟩]
      have he : (0xC0 + c / 0x40 - 0xC0) * 0x40 + (0x80 + c % 0x40 - 0x80)
          = c := by omega
      rw [he]
    · by_cases h3 : c < 0x10000
      · rw [show utf8EncodeChar c
            = [0xE0 + c / 0x1000, 0x80 + c / 0x40 % 0x40, 0x80 + c % 0x40] from by
          rw [utf8EncodeChar, if_neg h1, if_neg h2, if_pos h3]]
        rw [List.cons_append, List.cons_append, List.cons_append, List.nil_append]
        rw [utf8Decode_three (by omega) (by omega) ⟨by omega, by omega⟩
          ⟨by omega, by omega⟩ (by intro hE; omega) (by intro hE; omega)]
        have he : (0xE0 + c / 0x1000 - 0xE0) * 0x1000
            + (0x80 + c / 0x40 % 0x40 - 0x80) * 0x40 + (0x80 + c % 0x40 - 0x80)
            = c := by omega
        rw [he]
      · rw [show utf8EncodeChar c
            = [0xF0 + c / 0x40000, 0x80 + c / 0x1000 % 0x40,
               0x80 + c / 0x40 % 0x40, 0x80 + c % 0x40] from by
          rw [utf8EncodeChar, if_neg h1, if_neg h2, if_neg h3]]
        rw [List.cons_append, List.cons_append, List.cons_append,
          List.cons_append, List.nil_append]
        rw [utf8Decode_four (by omega) (by omega) ⟨by omega, by omega⟩
          ⟨by omega, by omega⟩ ⟨by omega, by omega⟩ (by intro hF; omega)
          (by intro hF; omega)]
        have he : (0xF0 + c / 0x40000 - 0xF0) * 0x40000
            + (0x80 + c / 0x1000 % 0x40 - 0x80) * 0x1000
            + (0x80 + c / 0x40 % 0x40 - 0x80) * 0x40 + (0x80 + c % 0x40 - 0x80)
            = c := by omega
        rw [he]

theorem utf8Decode_encode {l : List Nat} (h : ∀ c ∈ l, ValidScalar c) :
    utf8Decode (utf8Encode l) = l := by
  induction l with
  | nil => rfl
  | cons c t ih =>
    simp only [utf8Encode]
    rw [utf8Decode_encodeChar (h c (List.mem_cons_self c t)),
      ih fun x hx => h x (List.mem_cons_of_mem c hx)]

theorem dropWhile_all_false {p : Nat → Bool} {s : List Nat}
    (h : ∀ c ∈ s, p c = false) : s.dropWhile p = s := by
  cases s with
  | nil => rfl
  | cons c t => simp [List.dropWhile_cons, h c (List.mem_cons_self c t)]

theorem takeWhile_digits {s : List Nat} (h : IsDigits s) :
    s.takeWhile digitB = s ∧ s.dropWhile digitB = [] := by
  induction s with
  | nil => exact ⟨rfl, rfl⟩
  | cons c t ih =>
    have hc : digitB c = true := by
      have := h c (List.mem_cons_self c t)
      simp only [digitB, decide_eq_true_eq]
      omega
    have ht := ih fun x hx => h x (List.mem_cons_of_mem c hx)
    constructor
    · simp [List.takeWhile_cons, hc, ht.1]
    · simp [List.dropWhile_cons, hc, ht.2]

theorem digit_not_ws {c : Nat} (h1 : 43 ≤ c) (h2 : c ≤ 57) :
    jsWhitespaceB c = false := by
  simp only [jsWhitespaceB, decide_eq_false_iff_not]
  omega

theorem trimWs_no_ws {s : List Nat} (h : ∀ c ∈ s, jsWhitespaceB c = false) :
    trimWs s = s := by
  unfold trimWs
  rw [dropWhile_all_false h,
    dropWhile_all_false fun c hc => h c (List.mem_reverse.mp hc),
    List.reverse_reverse]

theorem radixMatch_digits {s : List Nat} (h : IsDigits s) :
    radixMatch s = false := by
  cases s with
  | nil => rfl
  | cons z t =>
    cases t with
    | nil => rfl
    | cons x r =>
      obtain ⟨hx1, hx2⟩ := h x (by simp)
      have hr : radixRest x r = false := by
        unfold radixRest
        rw [if_neg (by omega), if_neg (by omega), if_neg (by omega)]
      simp [radixMatch, hr]

theorem radixMatch_cons45 (t : List Nat) : radixMatch (45 :: t) = false := by
  cases t with
  | nil => rfl
  | cons x r => simp [radixMatch]

theorem decMatch_digits {s : List Nat} (h : IsDigits s) (hne : s ≠ []) :
    decMatch s = true := by
  have ht := takeWhile_digits h
  unfold decMatch
  rw [ht.2]
  simp [ht.1, hne, expTail]

theorem decZero_digits {s : List Nat} (h : IsDigits s) :
    decZero s = (s.all fun c => decide (c = 48)) := by
  have ht := takeWhile_digits h
  unfold decZero
  rw [ht.2]
  simp [ht.1]

theorem valDigits_zero_iff {s : List Nat} (h : IsDigits s) :
    valDigits s = 0 ↔ ∀ c ∈ s, c = 48 := by
  induction s using List.reverseRecOn with
  | nil => simp [valDigits]
  | append_singleton t c ih =>
    have hc := h c (by simp)
    have hih := ih fun x hx => h x (List.mem_append_left _ hx)
    rw [valDigits_concat]
    constructor
    · intro hz
      have h1 : valDigits t = 0 := by omega
      have h2 : c = 48 := by omega
      intro x hx
      rcases List.mem_append.mp hx with hm | hm
      · exact hih.mp h1 x hm
      · simp only [List.mem_singleton] at hm
        omega
    · intro hall
      have h1 := hih.mpr fun x hx => hall x (List.mem_append_left _ hx)
      have h2 : c = 48 := hall c (by simp)
      omega

theorem all48_false_of_val {s : List Nat} (hd : IsDigits s)
    (hv : valDigits s ≠ 0) : (s.all fun c => decide (c = 48)) = false := by
  cases hb : s.all fun c => decide (c = 48) with
  | false => rfl
  | true =>
    exfalso
    apply hv
    apply (valDigits_zero_iff hd).mpr
    intro x hx
    have := List.all_eq_true.mp hb x hx
    simpa using this

theorem signedBody_digit_head {c : Nat} (h1 : 48 ≤ c) (h2 : c ≤ 57)
    (t : List Nat) : signedBody (c :: t) = c :: t := by
  show (if c = 43 ∨ c = 45 then t else c :: t) = c :: t
  rw [if_neg (by omega)]

theorem signedBody_cons45 (t : List Nat) : signedBody (45 :: t) = t := by
  simp [signedBody]

theorem jsNumberFalsy_digits {s : List Nat} (hd : IsDigits s) (hne : s ≠ [])
    (hv : valDigits s ≠ 0) : jsNumberFalsy s = false := by
  have hws : ∀ c ∈ s, jsWhitespaceB c = false := by
    intro c hc
    obtain ⟨h1, h2⟩ := hd c hc
    exact digit_not_ws (by omega) h2
  cases s with
  | nil => exact absurd rfl hne
  | cons c t =>
    obtain ⟨hc1, hc2⟩ := hd c (List.mem_cons_self c t)
    unfold jsNumberFalsy
    rw [trimWs_no_ws hws]
    rw [if_neg (by simp)]
    rw [if_neg (by simp [radixMatch_digits hd])]
    rw [signedBody_digit_head hc1 hc2]
    rw [if_pos (decMatch_digits hd hne)]
    rw [decZero_digits hd]
    exact all48_false_of_val hd hv

theorem jsNumberFalsy_neg_digits {s : List Nat} (hd : IsDigits s)
    (hne : s ≠ []) (hv : valDigits s ≠ 0) :
    jsNumberFalsy (45 :: s) = false := by
  have hws : ∀ c ∈ 45 :: s, jsWhitespaceB c = false := by
    intro c hc
    rcases List.mem_cons.mp hc with h1 | h2
    · rw [h1]
      exact digit_not_ws (by omega) (by omega)
    · obtain ⟨hd1, hd2⟩ := hd c h2
      exact digit_not_ws (by omega) hd2
  unfold jsNumberFalsy
  rw [trimWs_no_ws hws]
  rw [if_neg (by simp)]
  rw [if_neg (by simp [radixMatch_cons45])]
  rw [signedBody_cons45]
  rw [if_pos (decMatch_digits hd hne)]
  rw [decZero_digits hd]
  exact all48_false_of_val hd hv

theorem jsNumber_nil : jsNumber [] = some 0 := rfl

theorem jsNumber_cons45 (rest : List Nat) :
    jsNumber (45 :: rest)
      = if rest ≠ [] ∧ IsDigits rest then some (-(valDigits rest : Int))
        else none := rfl

theorem jsNumber_cons_ne45 {c : Nat} (hc : c ≠ 45) (cs : List Nat) :
    jsNumber (c :: cs)
      = if IsDigits (c :: cs) then some ((valDigits (c :: cs) : Int))
        else none := by
  unfold jsNumber
  split
  · simp_all
  · rename_i heq
    rw [List.cons.injEq] at heq
    exact absurd heq.1 hc
  · rfl

theorem jsNumber_of_falsy {p : List Nat} (h : jsNumberFalsy p = true) :
    jsNumber p = none ∨ jsNumber p = some 0 := by
  cases p with
  | nil => exact Or.inr rfl
  | cons c cs =>
    by_cases hc : c = 45
    · subst hc
      rw [jsNumber_cons45]
      by_cases hcond : cs ≠ [] ∧ IsDigits cs
      · by_cases hval : valDigits cs = 0
        · right
          rw [if_pos hcond, hval]
          simp
        · exfalso
          have hf := jsNumberFalsy_neg_digits hcond.2 hcond.1 hval
          rw [hf] at h
          exact Bool.noConfusion h
      · left
        rw [if_neg hcond]
    · rw [jsNumber_cons_ne45 hc]
      by_cases hd : IsDigits (c :: cs)
      · by_cases hval : valDigits (c :: cs) = 0
        · right
          rw [if_pos hd, hval]
          rfl
        · exfalso
          have hf := jsNumberFalsy_digits hd (by simp) hval
          rw [hf] at h
          exact Bool.noConfusion h
      · left
        rw [if_neg hd]

/-- C3 counterexample: the claim says every token with an invalid encoding
charset, and every zero-or-negative port, is rejected with close code 1008
and no backend connection attempt; but Node's forgiving base64 decoder
skips the invalid character, so the path token "!aG86ODAw" still decodes to
"ho:800" and a backend connection is attempted, and a decoded "ho:-1"
(token "aG86LTE=") has the truthy port number -1 and also reaches the
connect call instead of being rejected. -/
theorem c3_decoder_counterexample :
    acceptConnection [47, 33, 97, 71, 56, 54, 79, 68, 65, 119]
      = Outcome.connect [104, 111] 800
  ∧ acceptConnection [47, 97, 71, 56, 54, 76, 84, 69, 61]
      = Outcome.connect [104, 111] (-1) := by
  decide

/-- C3 amended: the decoder rejects with policy-violation code 1008 and a
reason string — creating no Session and attempting no backend connection —
whenever the decoded token fails the host/port validation: empty host,
missing `:` separator (the port is then `Number(undefined)` = NaN), or a
port string whose JavaScript numeric value is falsy — NaN for every string
outside the numeric-literal grammar (non-numeric ports), and 0 for empty or
all-zero-mantissa port strings — as captured by the faithful falsiness test
`jsNumberFalsy`.  Tokens containing characters outside the base64 alphabet
are not rejected as such (the forgiving decoder skips them), and a negative
port is a truthy number, so it passes validation. -/
theorem c3_decoder_rejects (url : List Nat)
    (h : (jsSplit 58 (utf8Decode (base64Decode (replaceFirstSlash url)))).headI
          = []
       ∨ (jsSplit 58 (utf8Decode (base64Decode (replaceFirstSlash url))))[1]?
          = none
       ∨ (∃ p,
            (jsSplit 58 (utf8Decode (base64Decode (replaceFirstSlash url))))[1]?
                = some p
              ∧ jsNumberFalsy p = true)) :
    acceptConnection url = Outcome.reject 1008 needHostPort := by
  have hguard :
      (jsSplit 58 (utf8Decode (base64Decode (replaceFirstSlash url)))).headI
          = []
        ∨ jsNumberU
            (jsSplit 58 (utf8Decode (base64Decode (replaceFirstSlash url))))[1]?
            = none
        ∨ jsNumberU
            (jsSplit 58 (utf8Decode (base64Decode (replaceFirstSlash url))))[1]?
            = some 0 := by
    rcases h with h1 | h2 | ⟨p, hp, hf⟩
    · exact Or.inl h1
    · exact Or.inr (Or.inl (by rw [h2]; rfl))
    · rcases jsNumber_of_falsy hf with hn | hz
      · exact Or.inr (Or.inl (by rw [hp]; exact hn))
      · exact Or.inr (Or.inr (by rw [hp]; exact hz))
  unfold acceptConnection decideOutcome
  rw [if_pos hguard]

theorem c3_decoder_rejects_witness :
    acceptConnection [47, 97, 68, 112, 52] = Outcome.reject 1008 needHostPort :=
  c3_decoder_rejects [47, 97, 68, 112, 52]
    (Or.inr (Or.inr ⟨[120], by decide, by decide⟩))

/-- C6: for every valid destination — non-empty host with no colon, made of
Unicode scalar values, and a positive integer port — base64-encoding the
UTF-8 string "host:port" and presenting it as the connection path makes the
decoder recover exactly the original host and port and attempt the backend
connection to them. -/
theorem c6_encode_decode_roundtrip (host : List Nat) (port : Nat)
    (hne : host ≠ []) (hsc : ∀ c ∈ host, ValidScalar c)
    (hcol : (58 : Nat) ∉ host) (hp : 0 < port) :
    acceptConnection
        (47 :: base64Encode (utf8Encode (host ++ 58 :: natDigits port)))
      = Outcome.connect host (port : Int) := by
  have hdig := natDigits_spec port
  have hall : ∀ c ∈ host ++ 58 :: natDigits port, ValidScalar c := by
    intro c hc
    rcases List.mem_append.mp hc with hm | hm
    · exact hsc c hm
    · rcases List.mem_cons.mp hm with hm2 | hm2
      · rw [hm2]
        exact ⟨by omega, by omega⟩
      · have := hdig.1 c hm2
        exact ⟨by omega, by omega⟩
  unfold acceptConnection
  rw [show replaceFirstSlash
        (47 :: base64Encode (utf8Encode (host ++ 58 :: natDigits port)))
      = base64Encode (utf8Encode (host ++ 58 :: natDigits port)) from by
    simp [replaceFirstSlash]]
  rw [base64_roundtrip _ (utf8Encode_lt256 hall), utf8Decode_encode hall]
  have hdcol : (58 : Nat) ∉ natDigits port := by
    intro hm
    have := hdig.1 58 hm
    omega
  have hsplit : jsSplit 58 (host ++ 58 :: natDigits port)
      = host :: natDigits port :: [] := by
    rw [jsSplit_append_delim hcol, jsSplit_no_delim hdcol]
  have hv : jsNumber (natDigits port) = some ((port : Nat) : Int) := by
    rw [jsNumber_digits (natDigits port) hdig.1 hdig.2.2, hdig.2.1]
  exact decideOutcome_of_split hsplit hne (port : Int) hv
    (by exact_mod_cast Nat.pos_iff_ne_zero.mp hp)

theorem c6_encode_decode_roundtrip_witness :
    ([104] ≠ ([] : List Nat)) ∧ (0 < 80)
  ∧ acceptConnection
        (47 :: base64Encode (utf8Encode ([104] ++ 58 :: natDigits 80)))
      = Outcome.connect [104] (80 : Int) :=
  ⟨by decide, by decide,
   c6_encode_decode_roundtrip [104] 80 (by decide) (by decide) (by decide)
     (by decide)⟩

/-- C10: a decoded token with more than one colon is not rejected — the host
is the text before the first colon, the port is parsed from the text between
the first and second colon, every later colon-separated part is ignored, and
when that port is a truthy number a backend connection to the truncated
destination is attempted. -/
theorem c10_multicolon_truncation (h p r : List Nat) (hne : h ≠ [])
    (hcol : (58 : Nat) ∉ h) (hpcol : (58 : Nat) ∉ p) (v : Int)
    (hv : jsNumber p = some v) (hv0 : v ≠ 0) :
    decideOutcome (h ++ 58 :: (p ++ 58 :: r)) = Outcome.connect h v := by
  have hsplit : jsSplit 58 (h ++ 58 :: (p ++ 58 :: r))
      = h :: p :: jsSplit 58 r := by
    rw [jsSplit_append_delim hcol, jsSplit_append_delim hpcol]
  exact decideOutcome_of_split hsplit hne v hv hv0

theorem c10_multicolon_truncation_witness :
    decideOutcome ([97] ++ 58 :: ([56, 48] ++ 58 :: [120, 58, 121]))
      = Outcome.connect [97] 80 :=
  c10_multicolon_truncation [97] [56, 48] [120, 58, 121] (by decide)
    (by decide) (by decide) 80 (by decide) (by decide)
